import Mathlib

/-!
# Verification of the hyliocache library (SIMPLE / LRU / LFU / ARC policies)

Shallow embedding of the Go source of the `hyliocache` package.  Keys and
values are modelled as `Nat` (the source stores them as `interface{}` and
only ever compares keys for equality).  Time is modelled as `Nat`
nanosecond-style instants; `time.Time.Before` is strict `<`.

Conventions shared by all policies:

* Go maps used as key→entry stores are modelled as association lists
  (`List (Nat × CacheItem)`); map iteration order is unspecified in Go, the
  embedding fixes front-insertion order (no claim below depends on the
  scan order beyond "some arbitrary order").
* The configured `Clock` is modelled by passing its current reading `now`
  to every operation that calls `c.clock.Now()`.  The source's direct
  calls to `time.Now()` (in `Keys`, `Len`, `GetALL`, `Has`) take a
  separate `realNow` argument, because the two time sources differ when a
  fake clock is configured.
* Callback configuration: the embedding logs `added`/`evicted` callback
  firings into state fields (`addedLog`, `evictedLog`), modelling a cache
  built with both callbacks configured.
* A Go runtime panic (nil dereference, explicit `panic`) is modelled by
  returning `none` from the operation.
-/

/-- An entry's payload: the stored value and its optional absolute
expiration instant.  `simpleItem`, `lruItem`, `lfuItem` and `arcItem` in
the source all carry exactly this data (plus the key and a clock
reference, which the embedding keeps externally). -/
structure CacheItem where
  value : Nat
  expiration : Option Nat
  deriving DecidableEq, Repr

/-- `IsExpired`: an entry with no expiration never expires; otherwise it is
expired at `now` iff its expiration is strictly before `now`
(`it.expiration.Before(*now)`). -/
def isExpired (exp : Option Nat) (now : Nat) : Bool :=
  match exp with
  | none => false
  | some t => t < now

/-- Errors surfaced at the API boundary: the `KeyNotFoundError` sentinel
and loader-produced errors (including the captured loader panic, which the
source wraps into an ordinary error). -/
inductive CErr where
  | keyNotFound
  | loaderFail (code : Nat)
  deriving DecidableEq, Repr

/-- Replace the value stored under key `k` (Go: `item.value = value` on the
entry already held by the map). -/
def setItemValue (k v : Nat) (l : List (Nat × CacheItem)) : List (Nat × CacheItem) :=
  l.map fun p => if p.1 = k then (p.1, { p.2 with value := v }) else p

/-- Overwrite the expiration of the entry under key `k` (Go:
`item.expiration = &t`). -/
def setItemExp (k : Nat) (e : Option Nat) (l : List (Nat × CacheItem)) :
    List (Nat × CacheItem) :=
  l.map fun p => if p.1 = k then (p.1, { p.2 with expiration := e }) else p

/-- Delete key `k` from the entry map (Go: `delete(c.items, key)`). -/
def eraseItem (k : Nat) (l : List (Nat × CacheItem)) : List (Nat × CacheItem) :=
  l.filter fun p => p.1 ≠ k

/-- Apply the configured default expiration, if any, to the entry under `k`
(Go: `if c.expiration != nil { t := c.clock.Now().Add(*c.expiration);
item.expiration = &t }`). -/
def applyDefaultExp (defaultExp : Option Nat) (now k : Nat)
    (l : List (Nat × CacheItem)) : List (Nat × CacheItem) :=
  match defaultExp with
  | none => l
  | some d => setItemExp k (some (now + d)) l

/-! ## ARC policy (`ARCCache`, `arcList`) -/

/-- `arcList`: an ordered key list (front = most recent) together with a
key index.  Since the index is determined by the list, the embedding keeps
only the `List Nat`.  `PushFront` moves an already-present key to the
front, otherwise inserts it at the front; `k :: l.erase k` implements both
cases at once. -/
def arcPushFront (k : Nat) (l : List Nat) : List Nat :=
  k :: l.erase k

/-- `arcList.RemoveTail`: returns the back element and the remaining list.
On an empty list the source dereferences `l.Back() == nil` and panics,
modelled by `none`. -/
def arcRemoveTail (l : List Nat) : Option (Nat × List Nat) :=
  match l.getLast? with
  | none => none
  | some x => some (x, l.dropLast)

/-- State of `ARCCache`: the entry map, the adaptive parameter `part`, the
capacity `size`, the four key lists, the configured default expiration,
the hit/miss counters of the embedded `stats`, and the callback logs. -/
structure ArcState where
  items : List (Nat × CacheItem)
  part : Nat
  size : Nat
  t1 : List Nat
  t2 : List Nat
  b1 : List Nat
  b2 : List Nat
  defaultExp : Option Nat
  hits : Nat
  misses : Nat
  addedLog : List (Nat × Nat)
  evictedLog : List (Nat × Nat)
  deriving DecidableEq, Repr

/-- A fresh `ARCCache` of the given capacity (`newARCCache` + `init`, no
default expiration configured). -/
def arcInit (size : Nat) : ArcState :=
  ⟨[], 0, size, [], [], [], [], none, 0, 0, [], []⟩

/-- `ARCCache.isCacheFull`: the resident lists T1 ∪ T2 are at capacity. -/
def arcIsCacheFull (s : ArcState) : Bool :=
  s.t1.length + s.t2.length = s.size

/-- `ARCCache.setPart`: writes the adaptive parameter only when the cache
is resident-full. -/
def arcSetPart (p : Nat) (s : ArcState) : ArcState :=
  if arcIsCacheFull s then { s with part := p } else s

/-- Delete the evicted key's entry from the value map and fire the evicted
callback; a no-op when the map has no entry for the key (Go:
`item, ok := c.items[old]; if ok { delete(...); c.evictedFunc(...) }`). -/
def arcDeleteItem (old : Nat) (s : ArcState) : ArcState :=
  match s.items.lookup old with
  | none => s
  | some it =>
    { s with items := eraseItem old s.items,
             evictedLog := (old, it.value) :: s.evictedLog }

/-- `ARCCache.replace`: no-op unless resident-full; otherwise pops the tail
of T1 (to B1 front) when `|T1| > 0` and (`k ∈ B2 ∧ |T1| = p` or
`|T1| > p`), else the tail of T2 (to B2 front) when `|T2| > 0`, else falls
back to the tail of T1; then deletes the victim's entry. -/
def arcReplace (k : Nat) (s : ArcState) : Option ArcState :=
  if ¬ arcIsCacheFull s then some s
  else if 0 < s.t1.length ∧ ((k ∈ s.b2 ∧ s.t1.length = s.part) ∨ s.part < s.t1.length) then
    (arcRemoveTail s.t1).map fun p =>
      arcDeleteItem p.1 { s with t1 := p.2, b1 := arcPushFront p.1 s.b1 }
  else if 0 < s.t2.length then
    (arcRemoveTail s.t2).map fun p =>
      arcDeleteItem p.1 { s with t2 := p.2, b2 := arcPushFront p.1 s.b2 }
  else
    (arcRemoveTail s.t1).map fun p =>
      arcDeleteItem p.1 { s with t1 := p.2, b1 := arcPushFront p.1 s.b1 }

/-- First phase of `ARCCache.set`: upsert the entry in the value map
(overwrite the value, keeping the old expiration, if the key is present;
allocate a fresh entry otherwise) and refresh the default expiration. -/
def arcUpsert (k v now : Nat) (s : ArcState) : ArcState :=
  let items :=
    match s.items.lookup k with
    | some _ => setItemValue k v s.items
    | none => (k, ⟨v, none⟩) :: s.items
  { s with items := applyDefaultExp s.defaultExp now k items }

/-- Tail of the new-key path of `ARCCache.set`: fire the added callback and
prepend the key to T1. -/
def arcFinishNew (k v : Nat) (s : ArcState) : ArcState :=
  { s with addedLog := (k, v) :: s.addedLog, t1 := arcPushFront k s.t1 }

/-- `ARCCache.set` (the private, lock-free body).  Mirrors the source
line by line: upsert + default expiration; early return when the key is in
both T1 and T2; B1 ghost hit (adapt `p` upward, `replace`, move to T2
front); B2 ghost hit (adapt `p` downward — Go's `max(0, part - x)` over
`int` coincides with truncated `Nat` subtraction — `replace`, move to T2
front); otherwise the new-key path with the L1-full branch guarded by
`isCacheFull() && |T1|+|B1| == size`, the total-size branch, the added
callback and the final `t1.PushFront`. -/
def arcSet (k v now : Nat) (s : ArcState) : Option ArcState :=
  let s := arcUpsert k v now s
  if k ∈ s.t1 ∧ k ∈ s.t2 then some s
  else if k ∈ s.b1 then
    let s := arcSetPart (min s.size (s.part + max (s.b2.length / s.b1.length) 1)) s
    (arcReplace k s).map fun s =>
      { s with b1 := s.b1.erase k, t2 := arcPushFront k s.t2 }
  else if k ∈ s.b2 then
    let s := arcSetPart (s.part - max (s.b1.length / s.b2.length) 1) s
    (arcReplace k s).map fun s =>
      { s with b2 := s.b2.erase k, t2 := arcPushFront k s.t2 }
  else
    if arcIsCacheFull s ∧ s.t1.length + s.b1.length = s.size then
      if s.t1.length < s.size then
        (arcRemoveTail s.b1).bind fun p =>
          (arcReplace k { s with b1 := p.2 }).map (arcFinishNew k v)
      else
        (arcRemoveTail s.t1).map fun p =>
          arcFinishNew k v (arcDeleteItem p.1 { s with t1 := p.2 })
    else
      let total := s.t1.length + s.t2.length + s.b1.length + s.b2.length
      if s.size ≤ total then
        let s? : Option ArcState :=
          if total = 2 * s.size then
            if 0 < s.b2.length then
              (arcRemoveTail s.b2).map fun p => { s with b2 := p.2 }
            else
              (arcRemoveTail s.b1).map fun p => { s with b1 := p.2 }
          else some s
        (s?.bind (arcReplace k)).map (arcFinishNew k v)
      else some (arcFinishNew k v s)

/-- `ARCCache.SetWithExpire`: `set`, then overwrite the entry's expiration
with `clock.Now() + d`. -/
def arcSetWithExpire (k v d now : Nat) (s : ArcState) : Option ArcState :=
  (arcSet k v now s).map fun s =>
    { s with items := setItemExp k (some (now + d)) s.items }

/-- Second half of `ARCCache.getValue`: the T2 probe and the final miss
accounting.  Reached either when the key is not in T1 or after the
T1-expired cleanup fell through. -/
def arcGetStep2 (k now : Nat) (onLoad : Bool) (s : ArcState) :
    Option (Option Nat × ArcState) :=
  if k ∈ s.t2 then
    match s.items.lookup k with
    | none => none
    | some it =>
      if ¬ isExpired it.expiration now then
        some (some it.value,
          { s with t2 := k :: s.t2.erase k,
                   hits := s.hits + (if onLoad then 0 else 1) })
      else
        some (none,
          { s with items := eraseItem k s.items,
                   t2 := s.t2.erase k,
                   b2 := arcPushFront k s.b2,
                   evictedLog := (k, it.value) :: s.evictedLog,
                   misses := s.misses + (if onLoad then 0 else 1) })
  else
    some (none, { s with misses := s.misses + (if onLoad then 0 else 1) })

/-- `ARCCache.getValue` (hence `ARCCache.get`): T1 probe first — a hit
moves the key to T2's front and counts a hit unless `onLoad`; an expired
entry is deleted, its key moved to B1, and control falls through to the T2
probe, which behaves symmetrically (move-to-front of T2 / deletion to B2);
otherwise a miss is counted unless `onLoad`.  The source reads
`c.items[key]` without a presence check on both probes: a key present in a
T list but absent from the map nil-dereferences, modelled by `none`. -/
def arcGetValue (k now : Nat) (onLoad : Bool) (s : ArcState) :
    Option (Option Nat × ArcState) :=
  if k ∈ s.t1 then
    match s.items.lookup k with
    | none => none
    | some it =>
      if ¬ isExpired it.expiration now then
        some (some it.value,
          { s with t1 := s.t1.erase k,
                   t2 := arcPushFront k s.t2,
                   hits := s.hits + (if onLoad then 0 else 1) })
      else
        arcGetStep2 k now onLoad
          { s with t1 := s.t1.erase k,
                   items := eraseItem k s.items,
                   b1 := arcPushFront k s.b1,
                   evictedLog := (k, it.value) :: s.evictedLog }
  else arcGetStep2 k now onLoad s

/-- `ARCCache.remove`: a key resident in T1 (resp. T2) is dropped from the
list and the map, its key pushed onto the ghost list B1 (resp. B2), the
evicted callback fires and `true` is returned; otherwise `false`.  The
source reads `c.items[key].value` for the callback without a presence
check, modelled by `none` on a corrupt state. -/
def arcRemove (k : Nat) (s : ArcState) : Option (Bool × ArcState) :=
  if k ∈ s.t1 then
    match s.items.lookup k with
    | none => none
    | some it =>
      some (true,
        { s with t1 := s.t1.erase k,
                 items := eraseItem k s.items,
                 b1 := arcPushFront k s.b1,
                 evictedLog := (k, it.value) :: s.evictedLog })
  else if k ∈ s.t2 then
    match s.items.lookup k with
    | none => none
    | some it =>
      some (true,
        { s with t2 := s.t2.erase k,
                 items := eraseItem k s.items,
                 b2 := arcPushFront k s.b2,
                 evictedLog := (k, it.value) :: s.evictedLog })
  else some (false, s)

/-- `ARCCache.has`: entry present and not expired at the given instant. -/
def arcHas (k realNow : Nat) (s : ArcState) : Bool :=
  match s.items.lookup k with
  | none => false
  | some it => ¬ isExpired it.expiration realNow

/-- `ARCCache.Len`: without `checkExpired`, the size of the entry map; with
it, the number of entries not expired at `time.Now()` (note: the real
clock, not the configured one). -/
def arcLen (checkExpired : Bool) (realNow : Nat) (s : ArcState) : Nat :=
  if ¬ checkExpired then s.items.length
  else (s.items.filter fun p => ¬ isExpired p.2.expiration realNow).length

/-- `ARCCache.Keys`: the keys of the entry map, filtered by expiration at
`time.Now()` when `checkExpired`. -/
def arcKeys (checkExpired : Bool) (realNow : Nat) (s : ArcState) : List Nat :=
  (s.items.filter fun p => ¬ checkExpired || ¬ isExpired p.2.expiration realNow).map (·.1)

/-- `ARCCache.GetALL`: key/value snapshot, filtered like `Keys`. -/
def arcGetAll (checkExpired : Bool) (realNow : Nat) (s : ArcState) : List (Nat × Nat) :=
  (s.items.filter fun p => ¬ checkExpired || ¬ isExpired p.2.expiration realNow).map
    fun p => (p.1, p.2.value)

/-! ## SIMPLE policy (`SimpleCache`) -/

/-- State of `SimpleCache`: the unordered entry map, the capacity (a soft
ceiling, `size ≤ 0` meaning unbounded — sizes are `Nat` here and `0`
disables the ceiling), default expiration, stats and callback logs. -/
structure SimpleState where
  items : List (Nat × CacheItem)
  size : Nat
  defaultExp : Option Nat
  hits : Nat
  misses : Nat
  addedLog : List (Nat × Nat)
  evictedLog : List (Nat × Nat)
  deriving DecidableEq, Repr

/-- A fresh `SimpleCache` with no default expiration. -/
def simpleInit (size : Nat) : SimpleState :=
  ⟨[], size, none, 0, 0, [], []⟩

/-- `SimpleCache.remove`: delete the key if present, firing the evicted
callback; returns whether the key was present. -/
def simpleRemove (k : Nat) (s : SimpleState) : Bool × SimpleState :=
  match s.items.lookup k with
  | none => (false, s)
  | some it =>
    (true, { s with items := eraseItem k s.items,
                    evictedLog := (k, it.value) :: s.evictedLog })

/-- `SimpleCache.evict(1)`: scan the map (embedding: list order) and remove
the first entry that either has no expiration or is expired at
`clock.Now()`; a no-op when no such entry exists. -/
def simpleEvictOne (now : Nat) (s : SimpleState) : SimpleState :=
  match s.items.find? (fun p => p.2.expiration.isNone || isExpired p.2.expiration now) with
  | none => s
  | some p => (simpleRemove p.1 s).2

/-- `SimpleCache.set`: overwrite the value of an existing entry (keeping
its expiration), or — evicting one victim first when the map is at the
ceiling and `size > 0` — allocate a fresh entry; then apply the default
expiration and fire the added callback. -/
def simpleSet (k v now : Nat) (s : SimpleState) : SimpleState :=
  let s :=
    match s.items.lookup k with
    | some _ => { s with items := setItemValue k v s.items }
    | none =>
      let s := if s.size ≤ s.items.length ∧ 0 < s.size then simpleEvictOne now s else s
      { s with items := (k, ⟨v, none⟩) :: s.items }
  { s with items := applyDefaultExp s.defaultExp now k s.items,
           addedLog := (k, v) :: s.addedLog }

/-- `SimpleCache.SetWithExpire`: `set`, then overwrite the expiration with
`clock.Now() + d`. -/
def simpleSetWithExpire (k v d now : Nat) (s : SimpleState) : SimpleState :=
  let s := simpleSet k v now s
  { s with items := setItemExp k (some (now + d)) s.items }

/-- `SimpleCache.getValue`: a present, unexpired entry is a hit (counted
unless `onLoad`); an expired entry is removed (evicted callback) and, like
an absent key, reported as a miss (counted unless `onLoad`). -/
def simpleGetValue (k now : Nat) (onLoad : Bool) (s : SimpleState) :
    Option Nat × SimpleState :=
  match s.items.lookup k with
  | some it =>
    if ¬ isExpired it.expiration now then
      (some it.value, { s with hits := s.hits + (if onLoad then 0 else 1) })
    else
      let s := (simpleRemove k s).2
      (none, { s with misses := s.misses + (if onLoad then 0 else 1) })
  | none => (none, { s with misses := s.misses + (if onLoad then 0 else 1) })

/-- `SimpleCache.has`. -/
def simpleHas (k realNow : Nat) (s : SimpleState) : Bool :=
  match s.items.lookup k with
  | none => false
  | some it => ¬ isExpired it.expiration realNow

/-- `SimpleCache.Len`: map size, or the count of entries not expired at
`time.Now()` when `checkExpired`. -/
def simpleLen (checkExpired : Bool) (realNow : Nat) (s : SimpleState) : Nat :=
  if ¬ checkExpired then s.items.length
  else (s.items.filter fun p => ¬ isExpired p.2.expiration realNow).length

/-- `SimpleCache.Keys`. -/
def simpleKeys (checkExpired : Bool) (realNow : Nat) (s : SimpleState) : List Nat :=
  (s.items.filter fun p => ¬ checkExpired || ¬ isExpired p.2.expiration realNow).map (·.1)

/-- `SimpleCache.GetALL`. -/
def simpleGetAll (checkExpired : Bool) (realNow : Nat) (s : SimpleState) :
    List (Nat × Nat) :=
  (s.items.filter fun p => ¬ checkExpired || ¬ isExpired p.2.expiration realNow).map
    fun p => (p.1, p.2.value)

/-! ## LRU policy (`LRUCache`) -/

/-- State of `LRUCache`.  The source keeps a hash map from key to list
element plus the intrusive `evictList`; since the map's handles point into
the list, both are captured by one front-first association list. -/
structure LruState where
  list : List (Nat × CacheItem)
  size : Nat
  defaultExp : Option Nat
  hits : Nat
  misses : Nat
  addedLog : List (Nat × Nat)
  evictedLog : List (Nat × Nat)
  deriving DecidableEq, Repr

/-- A fresh `LRUCache` with no default expiration. -/
def lruInit (size : Nat) : LruState :=
  ⟨[], size, none, 0, 0, [], []⟩

/-- `LRUCache.removeElement`: unlink the node, delete its key from the map
and fire the evicted callback. -/
def lruRemoveElement (k : Nat) (it : CacheItem) (s : LruState) : LruState :=
  { s with list := eraseItem k s.list,
           evictedLog := (k, it.value) :: s.evictedLog }

/-- `LRUCache.evict(1)`: remove the back (least-recently-used) node if the
list is non-empty. -/
def lruEvictOne (s : LruState) : LruState :=
  match s.list.getLast? with
  | none => s
  | some p => lruRemoveElement p.1 p.2 { s with list := s.list.dropLast }

/-- `LRUCache.set`: an existing key is moved to the front with its value
overwritten (expiration kept); a new key is pushed to the front after
evicting the tail when the list is at capacity.  Then the default
expiration is applied and the added callback fires. -/
def lruSet (k v now : Nat) (s : LruState) : LruState :=
  let s :=
    match s.list.lookup k with
    | some it => { s with list := (k, { it with value := v }) :: eraseItem k s.list }
    | none =>
      let s := if s.size ≤ s.list.length then lruEvictOne s else s
      { s with list := (k, ⟨v, none⟩) :: s.list }
  { s with list := applyDefaultExp s.defaultExp now k s.list,
           addedLog := (k, v) :: s.addedLog }

/-- `LRUCache.SetWithExpire`. -/
def lruSetWithExpire (k v d now : Nat) (s : LruState) : LruState :=
  let s := lruSet k v now s
  { s with list := setItemExp k (some (now + d)) s.list }

/-- `LRUCache.getValue`: a present, unexpired entry is moved to the front
and is a hit (counted unless `onLoad`); an expired entry is removed via
`removeElement` and — like an absent key — reported as a miss (counted
unless `onLoad`). -/
def lruGetValue (k now : Nat) (onLoad : Bool) (s : LruState) :
    Option Nat × LruState :=
  match s.list.lookup k with
  | some it =>
    if ¬ isExpired it.expiration now then
      (some it.value,
        { s with list := (k, it) :: eraseItem k s.list,
                 hits := s.hits + (if onLoad then 0 else 1) })
    else
      let s := lruRemoveElement k it s
      (none, { s with misses := s.misses + (if onLoad then 0 else 1) })
  | none => (none, { s with misses := s.misses + (if onLoad then 0 else 1) })

/-- `LRUCache.remove`. -/
def lruRemove (k : Nat) (s : LruState) : Bool × LruState :=
  match s.list.lookup k with
  | none => (false, s)
  | some it => (true, lruRemoveElement k it s)

/-- `LRUCache.has`. -/
def lruHas (k realNow : Nat) (s : LruState) : Bool :=
  match s.list.lookup k with
  | none => false
  | some it => ¬ isExpired it.expiration realNow

/-- `LRUCache.Len`: map size, or the count of entries not expired at
`time.Now()` (the real clock, not the configured one) when
`checkExpired`. -/
def lruLen (checkExpired : Bool) (realNow : Nat) (s : LruState) : Nat :=
  if ¬ checkExpired then s.list.length
  else (s.list.filter fun p => ¬ isExpired p.2.expiration realNow).length

/-- `LRUCache.Keys`. -/
def lruKeys (checkExpired : Bool) (realNow : Nat) (s : LruState) : List Nat :=
  (s.list.filter fun p => ¬ checkExpired || ¬ isExpired p.2.expiration realNow).map (·.1)

/-- `LRUCache.GetALL`. -/
def lruGetAll (checkExpired : Bool) (realNow : Nat) (s : LruState) :
    List (Nat × Nat) :=
  (s.list.filter fun p => ¬ checkExpired || ¬ isExpired p.2.expiration realNow).map
    fun p => (p.1, p.2.value)

/-! ## LFU policy (`LFUCache`, `freqEntry`) -/

/-- A frequency bucket (`freqEntry`): a frequency label and the unordered
set of member entries, modelled by the list of their keys. -/
structure FreqEntry where
  freq : Nat
  items : List Nat
  deriving DecidableEq, Repr

/-- `isRemovableFreqEntry`: non-zero frequency and empty member set. -/
def lfuRemovable (e : FreqEntry) : Bool :=
  e.freq != 0 && e.items.isEmpty

/-- State of `LFUCache`: the entry map, the ascending frequency-bucket
list (`freqList`, initialized with a single `freq = 0` bucket), capacity,
default expiration, stats and callback logs.  The source's per-item bucket
handle (`item.freqElement`) is represented by the item's key occurring in
that bucket's member list. -/
structure LfuState where
  items : List (Nat × CacheItem)
  freqList : List FreqEntry
  size : Nat
  defaultExp : Option Nat
  hits : Nat
  misses : Nat
  addedLog : List (Nat × Nat)
  evictedLog : List (Nat × Nat)
  deriving DecidableEq, Repr

/-- A fresh `LFUCache` (`init` pushes the `freq = 0` bucket). -/
def lfuInit (size : Nat) : LfuState :=
  ⟨[], [⟨0, []⟩], size, none, 0, 0, [], []⟩

/-- Drop key `k` from the bucket holding it (the source reaches that bucket
through `item.freqElement`), removing the bucket itself if it became
removable. -/
def bucketsEraseItem (k : Nat) : List FreqEntry → List FreqEntry
  | [] => []
  | b :: bs =>
    if k ∈ b.items then
      let b' : FreqEntry := ⟨b.freq, b.items.erase k⟩
      if lfuRemovable b' then bs else b' :: bs
    else b :: bucketsEraseItem k bs

/-- `LFUCache.removeItem`: delete the entry from the map and from its
bucket (dropping a now-removable bucket), and fire the evicted callback.
Called by the source only through a live item handle, so the key is always
present in the map there. -/
def lfuRemoveItem (k : Nat) (s : LfuState) : LfuState :=
  match s.items.lookup k with
  | none => s
  | some it =>
    { s with items := eraseItem k s.items,
             freqList := bucketsEraseItem k s.freqList,
             evictedLog := (k, it.value) :: s.evictedLog }

/-- The first member of the first non-empty bucket, scanning from the
lowest-frequency end (the source's `evict` scans `freqList` from the front
and ranges over the bucket's set in arbitrary order). -/
def lfuFirstVictim : List FreqEntry → Option Nat
  | [] => none
  | b :: bs =>
    match b.items with
    | [] => lfuFirstVictim bs
    | k :: _ => some k

/-- `LFUCache.evict(1)`: remove one entry from the lowest-frequency
non-empty bucket; a no-op when every bucket is empty. -/
def lfuEvictOne (s : LfuState) : LfuState :=
  match lfuFirstVictim s.freqList with
  | none => s
  | some k => lfuRemoveItem k s

/-- `LFUCache.set`: overwrite the value of an existing entry (the bucket
association is untouched — an overwrite is not an access), or — evicting
one victim first when at capacity — allocate a fresh entry attached to the
front bucket of `freqList`.  Then the default expiration is applied and
the added callback fires.  An empty `freqList` would nil-dereference in
the source (`L.freqList.Front().Value`), modelled by `none`; `init`
guarantees the `freq = 0` front bucket. -/
def lfuSet (k v now : Nat) (s : LfuState) : Option LfuState :=
  match s.items.lookup k with
  | some _ =>
    some { s with items := applyDefaultExp s.defaultExp now k (setItemValue k v s.items),
                  addedLog := (k, v) :: s.addedLog }
  | none =>
    let s := if s.size ≤ s.items.length then lfuEvictOne s else s
    match s.freqList with
    | [] => none
    | head :: rest =>
      some { s with freqList := ⟨head.freq, k :: head.items⟩ :: rest,
                    items := applyDefaultExp s.defaultExp now k ((k, ⟨v, none⟩) :: s.items),
                    addedLog := (k, v) :: s.addedLog }

/-- `LFUCache.SetWithExpire`. -/
def lfuSetWithExpire (k v d now : Nat) (s : LfuState) : Option LfuState :=
  (lfuSet k v now s).map fun s =>
    { s with items := setItemExp k (some (now + d)) s.items }

/-- `LFUCache.increment`, acting on the entry's bucket `cur` and the
suffix of the frequency list after it (`post`); the prefix before `cur`
is untouched by the source and kept outside.  The entry is removed from
`cur`; then: successor absent or of frequency above `cur.freq + 1` —
relabel `cur` (when removable) or splice in a fresh bucket; successor of
frequency exactly `cur.freq + 1` — join it, dropping `cur` when removable;
a successor of lower frequency is the source's
`panic("LFU freq element unreachable")`, modelled by `none`. -/
def lfuIncrement (k : Nat) (cur : FreqEntry) (post : List FreqEntry) :
    Option (List FreqEntry) :=
  let nextFreq := cur.freq + 1
  let cur' : FreqEntry := ⟨cur.freq, cur.items.erase k⟩
  match post with
  | [] =>
    if lfuRemovable cur' then some [⟨nextFreq, [k]⟩]
    else some [cur', ⟨nextFreq, [k]⟩]
  | nx :: rest =>
    if nextFreq < nx.freq then
      if lfuRemovable cur' then some (⟨nextFreq, [k]⟩ :: nx :: rest)
      else some (cur' :: ⟨nextFreq, [k]⟩ :: nx :: rest)
    else if nx.freq = nextFreq then
      if lfuRemovable cur' then some (⟨nx.freq, k :: nx.items⟩ :: rest)
      else some (cur' :: ⟨nx.freq, k :: nx.items⟩ :: rest)
    else none

/-- Locate the bucket holding `k` (the source follows `item.freqElement`
directly) and run `lfuIncrement` there; `none` when no bucket holds `k`,
which cannot happen for a live item in the source. -/
def lfuIncrementOn (k : Nat) : List FreqEntry → Option (List FreqEntry)
  | [] => none
  | cur :: rest =>
    if k ∈ cur.items then lfuIncrement k cur rest
    else (lfuIncrementOn k rest).map (cur :: ·)

/-- `LFUCache.getValue`: a present, unexpired entry is promoted via
`increment` and is a hit (counted unless `onLoad`); an expired entry is
removed via `removeItem` and — like an absent key — reported as a miss
(counted unless `onLoad`). -/
def lfuGetValue (k now : Nat) (onLoad : Bool) (s : LfuState) :
    Option (Option Nat × LfuState) :=
  match s.items.lookup k with
  | some it =>
    if ¬ isExpired it.expiration now then
      (lfuIncrementOn k s.freqList).map fun fl =>
        (some it.value,
          { s with freqList := fl, hits := s.hits + (if onLoad then 0 else 1) })
    else
      let s := lfuRemoveItem k s
      some (none, { s with misses := s.misses + (if onLoad then 0 else 1) })
  | none => some (none, { s with misses := s.misses + (if onLoad then 0 else 1) })

/-- `LFUCache.remove`. -/
def lfuRemove (k : Nat) (s : LfuState) : Bool × LfuState :=
  match s.items.lookup k with
  | none => (false, s)
  | some _ => (true, lfuRemoveItem k s)

/-- `LFUCache.has`. -/
def lfuHas (k realNow : Nat) (s : LfuState) : Bool :=
  match s.items.lookup k with
  | none => false
  | some it => ¬ isExpired it.expiration realNow

/-- `LFUCache.Len`. -/
def lfuLen (checkExpired : Bool) (realNow : Nat) (s : LfuState) : Nat :=
  if ¬ checkExpired then s.items.length
  else (s.items.filter fun p => ¬ isExpired p.2.expiration realNow).length

/-- `LFUCache.Keys`. -/
def lfuKeys (checkExpired : Bool) (realNow : Nat) (s : LfuState) : List Nat :=
  (s.items.filter fun p => ¬ checkExpired || ¬ isExpired p.2.expiration realNow).map (·.1)

/-- `LFUCache.GetALL`. -/
def lfuGetAll (checkExpired : Bool) (realNow : Nat) (s : LfuState) :
    List (Nat × Nat) :=
  (s.items.filter fun p => ¬ checkExpired || ¬ isExpired p.2.expiration realNow).map
    fun p => (p.1, p.2.value)

/-! ## Single-flight coordinator (`Group.Do`) and the loader path

`Group.Do` is generic in the policy: it consults the policy through the
internal `get(key, true)` API and runs the wrapped loader callback `fn`.
The embedding is parameterized by:

* `getOnLoad` — the policy's internal `get(key, onLoad := true)`;
* `descriptorExists` — whether `g.m[key]` holds an in-flight call
  descriptor at entry;
* `inflightVal`/`inflightErr` — the value/error the in-flight call will
  have completed with, observed after `c.wg.Wait()` by a waiting caller;
* `fn` — the wrapped loader (the `cb`-closure built by `load`, whose
  `recover` turns any panic into an ordinary error, so `fn` is total);
* `isWait` — wait mode vs. deferred mode.

The outcome records, besides Do's `(value, called, error)` triple and the
resulting cache state, which control actions happened: whether this caller
blocked on the completion (`waited`, the `c.wg.Wait()` call), whether `fn`
ran on this caller's stack (`ranInline`) and whether a background task was
dispatched (`spawned`).  In the `spawned` case the returned state includes
the background task's eventual effect. -/
structure DoOutcome (σ : Type) where
  value : Option Nat
  called : Bool
  err : Option CErr
  state : σ
  waited : Bool
  spawned : Bool
  ranInline : Bool

/-- `Group.Do(key, fn, isWait)`: internal cache get first (a hit returns
`(v, false, nil)`); then the descriptor check — deferred callers get
`(nil, false, KeyNotFoundError)` back immediately, waiting callers block
and adopt the in-flight result; a fresh descriptor runs `fn` inline (wait
mode) or on a background task (deferred mode, again returning
`(nil, false, KeyNotFoundError)` immediately).  `none` only when the
internal get itself panics. -/
def groupDo {σ : Type} (getOnLoad : σ → Option (Option Nat × σ))
    (descriptorExists : Bool) (inflightVal : Option Nat) (inflightErr : Option CErr)
    (fn : σ → (Option Nat × Option CErr) × σ) (isWait : Bool) (s : σ) :
    Option (DoOutcome σ) :=
  match getOnLoad s with
  | none => none
  | some (some v, s) => some ⟨some v, false, none, s, false, false, false⟩
  | some (none, s) =>
    if descriptorExists then
      if isWait then some ⟨inflightVal, false, inflightErr, s, true, false, false⟩
      else some ⟨none, false, some .keyNotFound, s, false, false, false⟩
    else
      if isWait then
        let r := fn s
        some ⟨r.1.1, true, r.1.2, r.2, false, false, true⟩
      else
        some ⟨none, false, some .keyNotFound, (fn s).2, false, true, false⟩

/-- The tail of `baseCache.load` + `getWithLoader`: run `Do` and translate
its `(value, called, err)` into the `(value, error)` pair returned to the
caller (`if err != nil { return nil, err }`). -/
def loadFlow {σ : Type} (getOnLoad : σ → Option (Option Nat × σ))
    (descriptorExists : Bool) (inflightVal : Option Nat) (inflightErr : Option CErr)
    (fn : σ → (Option Nat × Option CErr) × σ) (isWait : Bool) (s : σ) :
    Option ((Option Nat × Option CErr) × σ) :=
  (groupDo getOnLoad descriptorExists inflightVal inflightErr fn isWait s).map fun o =>
    match o.err with
    | some e => ((none, some e), o.state)
    | none => ((o.value, none), o.state)

/-- The result of the user loader (`loaderExpireFunc(key)`): a value, an
optional per-entry expiration duration, and an error. -/
def LoaderRes : Type := Nat × Option Nat × Option CErr

/-- The `cb` closure each policy passes to `load` (here for `LRUCache`): a
loader error is passed through; otherwise the value is stored via `set`
and the loader-supplied expiration, if any, overrides the entry's. -/
def lruLoaderCb (k now : Nat) (lr : LoaderRes) (s : LruState) :
    (Option Nat × Option CErr) × LruState :=
  match lr.2.2 with
  | some e => ((none, some e), s)
  | none =>
    let s := lruSet k lr.1 now s
    let s :=
      match lr.2.1 with
      | none => s
      | some d => { s with list := setItemExp k (some (now + d)) s.list }
    ((some lr.1, none), s)

/-- `cb` for `SimpleCache`. -/
def simpleLoaderCb (k now : Nat) (lr : LoaderRes) (s : SimpleState) :
    (Option Nat × Option CErr) × SimpleState :=
  match lr.2.2 with
  | some e => ((none, some e), s)
  | none =>
    let s := simpleSet k lr.1 now s
    let s :=
      match lr.2.1 with
      | none => s
      | some d => { s with items := setItemExp k (some (now + d)) s.items }
    ((some lr.1, none), s)

/-- `cb` for `LFUCache`.  A panic raised by `set` is captured by the
`recover` in `load`'s closure and surfaces as a loader-panic error; the
panicking branch mutates nothing the claims observe (in particular `set`
never touches the stats counters), so the pre-`set` state is kept. -/
def lfuLoaderCb (k now : Nat) (lr : LoaderRes) (s : LfuState) :
    (Option Nat × Option CErr) × LfuState :=
  match lr.2.2 with
  | some e => ((none, some e), s)
  | none =>
    match lfuSet k lr.1 now s with
    | none => ((none, some (.loaderFail 0)), s)
    | some s =>
      let s :=
        match lr.2.1 with
        | none => s
        | some d => { s with items := setItemExp k (some (now + d)) s.items }
      ((some lr.1, none), s)

/-- `cb` for `ARCCache` (panics captured as for `lfuLoaderCb`). -/
def arcLoaderCb (k now : Nat) (lr : LoaderRes) (s : ArcState) :
    (Option Nat × Option CErr) × ArcState :=
  match lr.2.2 with
  | some e => ((none, some e), s)
  | none =>
    match arcSet k lr.1 now s with
    | none => ((none, some (.loaderFail 0)), s)
    | some s =>
      let s :=
        match lr.2.1 with
        | none => s
        | some d => { s with items := setItemExp k (some (now + d)) s.items }
      ((some lr.1, none), s)

/-- `LRUCache.getWithLoader`: `KeyNotFoundError` when no loader is
configured, else the single-flight load.  `ldr` is the configured loader's
result at this key (`none` = no loader configured). -/
def lruGetWithLoader (k now : Nat) (ldr : Option LoaderRes) (descriptorExists : Bool)
    (inflightVal : Option Nat) (inflightErr : Option CErr) (isWait : Bool)
    (s : LruState) : Option ((Option Nat × Option CErr) × LruState) :=
  match ldr with
  | none => some ((none, some .keyNotFound), s)
  | some lr =>
    loadFlow (fun s => some (lruGetValue k now true s)) descriptorExists
      inflightVal inflightErr (lruLoaderCb k now lr) isWait s

/-- `SimpleCache.getWithLoader`. -/
def simpleGetWithLoader (k now : Nat) (ldr : Option LoaderRes) (descriptorExists : Bool)
    (inflightVal : Option Nat) (inflightErr : Option CErr) (isWait : Bool)
    (s : SimpleState) : Option ((Option Nat × Option CErr) × SimpleState) :=
  match ldr with
  | none => some ((none, some .keyNotFound), s)
  | some lr =>
    loadFlow (fun s => some (simpleGetValue k now true s)) descriptorExists
      inflightVal inflightErr (simpleLoaderCb k now lr) isWait s

/-- `LFUCache.getWithLoader`. -/
def lfuGetWithLoader (k now : Nat) (ldr : Option LoaderRes) (descriptorExists : Bool)
    (inflightVal : Option Nat) (inflightErr : Option CErr) (isWait : Bool)
    (s : LfuState) : Option ((Option Nat × Option CErr) × LfuState) :=
  match ldr with
  | none => some ((none, some .keyNotFound), s)
  | some lr =>
    loadFlow (lfuGetValue k now true) descriptorExists
      inflightVal inflightErr (lfuLoaderCb k now lr) isWait s

/-- `ARCCache.getWithLoader`. -/
def arcGetWithLoader (k now : Nat) (ldr : Option LoaderRes) (descriptorExists : Bool)
    (inflightVal : Option Nat) (inflightErr : Option CErr) (isWait : Bool)
    (s : ArcState) : Option ((Option Nat × Option CErr) × ArcState) :=
  match ldr with
  | none => some ((none, some .keyNotFound), s)
  | some lr =>
    loadFlow (arcGetValue k now true) descriptorExists
      inflightVal inflightErr (arcLoaderCb k now lr) isWait s

/-- Top-level `LRUCache.Get`: a user-visible get (`onLoad = false`), falling
through to the loader path in wait mode on `KeyNotFoundError`. -/
def lruGet (k now : Nat) (ldr : Option LoaderRes) (descriptorExists : Bool)
    (inflightVal : Option Nat) (inflightErr : Option CErr) (s : LruState) :
    Option ((Option Nat × Option CErr) × LruState) :=
  match lruGetValue k now false s with
  | (some v, s) => some ((some v, none), s)
  | (none, s) => lruGetWithLoader k now ldr descriptorExists inflightVal inflightErr true s

/-- Top-level `LRUCache.GetIfPresent`: as `Get` but the loader path runs in
deferred mode. -/
def lruGetIfPresent (k now : Nat) (ldr : Option LoaderRes) (descriptorExists : Bool)
    (inflightVal : Option Nat) (inflightErr : Option CErr) (s : LruState) :
    Option ((Option Nat × Option CErr) × LruState) :=
  match lruGetValue k now false s with
  | (some v, s) => some ((some v, none), s)
  | (none, s) => lruGetWithLoader k now ldr descriptorExists inflightVal inflightErr false s

/-- Top-level `SimpleCache.Get`. -/
def simpleGet (k now : Nat) (ldr : Option LoaderRes) (descriptorExists : Bool)
    (inflightVal : Option Nat) (inflightErr : Option CErr) (s : SimpleState) :
    Option ((Option Nat × Option CErr) × SimpleState) :=
  match simpleGetValue k now false s with
  | (some v, s) => some ((some v, none), s)
  | (none, s) => simpleGetWithLoader k now ldr descriptorExists inflightVal inflightErr true s

/-- Top-level `SimpleCache.GetIfPresent`. -/
def simpleGetIfPresent (k now : Nat) (ldr : Option LoaderRes) (descriptorExists : Bool)
    (inflightVal : Option Nat) (inflightErr : Option CErr) (s : SimpleState) :
    Option ((Option Nat × Option CErr) × SimpleState) :=
  match simpleGetValue k now false s with
  | (some v, s) => some ((some v, none), s)
  | (none, s) => simpleGetWithLoader k now ldr descriptorExists inflightVal inflightErr false s

/-- Top-level `LFUCache.Get`. -/
def lfuGet (k now : Nat) (ldr : Option LoaderRes) (descriptorExists : Bool)
    (inflightVal : Option Nat) (inflightErr : Option CErr) (s : LfuState) :
    Option ((Option Nat × Option CErr) × LfuState) :=
  (lfuGetValue k now false s).bind fun r =>
    match r with
    | (some v, s) => some ((some v, none), s)
    | (none, s) => lfuGetWithLoader k now ldr descriptorExists inflightVal inflightErr true s

/-- Top-level `LFUCache.GetIfPresent`. -/
def lfuGetIfPresent (k now : Nat) (ldr : Option LoaderRes) (descriptorExists : Bool)
    (inflightVal : Option Nat) (inflightErr : Option CErr) (s : LfuState) :
    Option ((Option Nat × Option CErr) × LfuState) :=
  (lfuGetValue k now false s).bind fun r =>
    match r with
    | (some v, s) => some ((some v, none), s)
    | (none, s) => lfuGetWithLoader k now ldr descriptorExists inflightVal inflightErr false s

/-- Top-level `ARCCache.Get`. -/
def arcGet (k now : Nat) (ldr : Option LoaderRes) (descriptorExists : Bool)
    (inflightVal : Option Nat) (inflightErr : Option CErr) (s : ArcState) :
    Option ((Option Nat × Option CErr) × ArcState) :=
  (arcGetValue k now false s).bind fun r =>
    match r with
    | (some v, s) => some ((some v, none), s)
    | (none, s) => arcGetWithLoader k now ldr descriptorExists inflightVal inflightErr true s

/-- Top-level `ARCCache.GetIfPresent`. -/
def arcGetIfPresent (k now : Nat) (ldr : Option LoaderRes) (descriptorExists : Bool)
    (inflightVal : Option Nat) (inflightErr : Option CErr) (s : ArcState) :
    Option ((Option Nat × Option CErr) × ArcState) :=
  (arcGetValue k now false s).bind fun r =>
    match r with
    | (some v, s) => some ((some v, none), s)
    | (none, s) => arcGetWithLoader k now ldr descriptorExists inflightVal inflightErr false s

/-! ## Auxiliary definitions for the stated properties -/

/-- A read-only API call as a state transformer: the source bodies of
`Keys`, `Len`, `Has` and `GetALL` perform no writes to the cache fields,
so the state at return is the state at entry. -/
def readOp {σ α : Type} (f : σ → α) (s : σ) : α × σ := (f s, s)

/-- Spec-side count for `Len(checkExpired = true)`: the number of entries
not expired at the current time of the cache's configured clock (the spec
reads "`Len(true)` == count of non-expired entries", with expiration
defined against the pluggable clock that also stamps the entries). -/
def lruLenPerConfiguredClock (clockNow : Nat) (s : LruState) : Nat :=
  (s.list.filter fun p => ¬ isExpired p.2.expiration clockNow).length

/-- Concrete ARC run, capacity 1: `Set(1,10); Get(1); Set(1,20)`.  The
`Get` moves key 1 to T2; the second `Set` then falls past the
`t1.Has && t2.Has` early return into the new-key path, and `replace`
evicts key 1 itself — deleting its map entry — before the final
`t1.PushFront(1)`. -/
def arcBugTrace : Option ArcState :=
  (arcSet 1 10 0 (arcInit 1)).bind fun s =>
    (arcGetValue 1 0 false s).bind fun r =>
      arcSet 1 20 0 r.2

/-- Concrete ARC run, capacity 2: `Set(1,10); Set(2,20); Remove(1);
Remove(2)`.  Both removals push their key onto the ghost list B1, reaching
a state with `|T1| + |B1| = 2 = capacity` while `|T1| + |T2| = 0`. -/
def arcC3Pre : Option ArcState :=
  (arcSet 1 10 0 (arcInit 2)).bind fun s =>
    (arcSet 2 20 0 s).bind fun r1 =>
      (arcRemove 1 r1).bind fun r2 =>
        (arcRemove 2 r2.2).map (·.2)

/-- A fake-clock LRU cache (clock reading 0) right after
`SetWithExpire(1, 5, 10)`: the single entry expires at instant 10 of the
configured clock. -/
def lruC4State : LruState :=
  lruSetWithExpire 1 5 10 0 (lruInit 2)

/-- The pair of stats counters of a `SimpleCache`. -/
def simpleStats (s : SimpleState) : Nat × Nat := (s.hits, s.misses)

/-- The pair of stats counters of an `LRUCache`. -/
def lruStats (s : LruState) : Nat × Nat := (s.hits, s.misses)

/-- The pair of stats counters of an `LFUCache`. -/
def lfuStats (s : LfuState) : Nat × Nat := (s.hits, s.misses)

/-- The pair of stats counters of an `ARCCache`. -/
def arcStats (s : ArcState) : Nat × Nat := (s.hits, s.misses)

/-- `post` counts exactly one more lookup than `pre`: either one more hit
or one more miss, the other counter unchanged. -/
def oneMoreLookup (post pre : Nat × Nat) : Prop :=
  (post.1 = pre.1 + 1 ∧ post.2 = pre.2) ∨ (post.1 = pre.1 ∧ post.2 = pre.2 + 1)

/-- Strict ascent of bucket frequencies along the LFU frequency list. -/
def freqAscending (l : List FreqEntry) : Prop :=
  l.Pairwise fun a b => a.freq < b.freq

/-! ## Shared helper lemmas -/

theorem arcRemoveTail_isSome {l : List Nat} (h : l ≠ []) : (arcRemoveTail l).isSome := by
  unfold arcRemoveTail
  cases hl : l.getLast? with
  | none => exact absurd (List.getLast?_eq_none_iff.mp hl) h
  | some x => rfl

/-! ## C1 — the ARC invariants are not preserved by `set`

On a capacity-1 cache, `Set(1,10); Get(1); Set(1,20)` leaves key 1 in both
T1 and B2 with an empty value map: the pairwise-disjointness invariant and
"value map keys = T1 ∪ T2" are both violated (the culprit is `set`'s
`t1.Has(key) && t2.Has(key)` early return, which lets a resident key fall
into the new-key path, where `replace` evicts that very key).  The next
`Get(1)` then dereferences the missing map entry (`none` = Go panic). -/

/-- **C1.** After the run `Set(1,10); Get(1); Set(1,20)` on a capacity-1
ARC cache, key 1 sits in both T1 and B2 while the value map is empty —
invariants (i) and (v) fail at a quiescent point — and a subsequent
`Get(1)` nil-dereferences. -/
theorem arc_resident_overwrite_breaks_invariants :
    (arcBugTrace.map fun s =>
      decide (1 ∈ s.t1 ∧ 1 ∈ s.b2 ∧ s.items = [] ∧ s.size = 1)) = some true
    ∧ (arcBugTrace.bind fun s => arcGetValue 1 0 false s) = none :=
  ⟨rfl, rfl⟩

/-! ## C4 — `Len(true)` consults `time.Now()`, not the configured clock -/

/-- **C4.** On a fake-clock cache (clock reading 0) holding one entry that
expires at configured-clock instant 10, `Len(true)` evaluated while the
wall clock reads 100 returns 0, although the entry is not expired per the
configured clock (spec-side count 1) — and a `Get` through the configured
clock still returns the value.  `Len(false)` does count the held entries.
The source stamps expirations from `c.clock.Now()` but filters `Len`,
`Keys`, `Has`, `GetALL` against `time.Now()`. -/
theorem lru_len_checks_wall_clock :
    lruLen true 100 lruC4State = 0 ∧
    lruLenPerConfiguredClock 0 lruC4State = 1 ∧
    lruLen false 100 lruC4State = 1 ∧
    lruHas 1 100 lruC4State = false ∧
    lruKeys true 100 lruC4State = [] ∧
    (lruGetValue 1 10 false lruC4State).1 = some 5 :=
  ⟨rfl, rfl, rfl, rfl, rfl, rfl⟩

/-! ## C10 — `replace` never pops an empty list -/

/-- **C10.** With capacity > 0, whenever `replace` runs past its
resident-full guard (`|T1| + |T2| = capacity`), each of its branches pops
a non-empty list, so the nil-element dereference inside
`arcList.RemoveTail` is unreachable: `replace` always returns a state
(never the modelled panic). -/
theorem arc_replace_never_pops_empty (k : Nat) (s : ArcState)
    (hcap : 0 < s.size) (hfull : s.t1.length + s.t2.length = s.size) :
    (arcReplace k s).isSome = true := by
  have hfull' : arcIsCacheFull s = true := by simp [arcIsCacheFull, hfull]
  have hpop : ∀ (l : List Nat), l ≠ [] → ∀ f : Nat × List Nat → ArcState,
      ((arcRemoveTail l).map f).isSome = true := by
    intro l h f
    rw [Option.isSome_map']
    exact arcRemoveTail_isSome h
  unfold arcReplace
  rw [hfull']
  simp only [not_true_eq_false, if_false]
  split
  · rename_i h
    exact hpop _ (List.ne_nil_of_length_pos h.1) _
  · split
    · rename_i h
      exact hpop _ (List.ne_nil_of_length_pos h) _
    · rename_i h1 h2
      have ht1 : 0 < s.t1.length := by
        have : s.t2.length = 0 := by omega
        omega
      exact hpop _ (List.ne_nil_of_length_pos ht1) _

/-- Witness for C10 at a concrete resident-full state. -/
theorem arc_replace_never_pops_empty_witness :
    (0 < (⟨[(4, ⟨7, none⟩)], 0, 1, [4], [], [], [], none, 0, 0, [], []⟩ : ArcState).size ∧
      (⟨[(4, ⟨7, none⟩)], 0, 1, [4], [], [], [], none, 0, 0, [], []⟩ : ArcState).t1.length +
      (⟨[(4, ⟨7, none⟩)], 0, 1, [4], [], [], [], none, 0, 0, [], []⟩ : ArcState).t2.length =
      (⟨[(4, ⟨7, none⟩)], 0, 1, [4], [], [], [], none, 0, 0, [], []⟩ : ArcState).size) ∧
    (arcReplace 9 ⟨[(4, ⟨7, none⟩)], 0, 1, [4], [], [], [], none, 0, 0, [], []⟩).isSome = true :=
  ⟨⟨by decide, by decide⟩,
    arc_replace_never_pops_empty 9 _ (by decide) (by decide)⟩

/-! ## C3 — the L1-full case of ARC `set`

The source guards the L1-full branch with
`isCacheFull() && t1.Len()+b1.Len() == size`; the extra resident-full
conjunct makes the branch unreachable in states where `|T1|+|B1| =
capacity` but `|T1|+|T2| < capacity` (reachable via `Remove`, which parks
keys on the ghost lists). -/

/-- **C3, counterexample.** Capacity 2: after `Set(1); Set(2); Remove(1);
Remove(2)` the state has `|T1|+|B1| = 2 = capacity` and `|T1| = 0 <
capacity`, with B1 tail = key 1; the claim then requires `Set(3)` (3 being
new to all four lists) to drop B1's tail — but the code leaves `B1 =
[2,1]` untouched, and `|T1|+|B1| = 3` exceeds the capacity afterwards. -/
theorem arc_l1_full_handling_skipped :
    (arcC3Pre.map fun pre =>
      decide (pre.size = 2 ∧ pre.t1.length + pre.b1.length = pre.size ∧
        pre.t1.length < pre.size ∧
        3 ∉ pre.t1 ∧ 3 ∉ pre.t2 ∧ 3 ∉ pre.b1 ∧ 3 ∉ pre.b2 ∧
        pre.b1.getLast? = some 1 ∧
        (arcSet 3 30 0 pre).map (fun post => post.b1) = some [2, 1] ∧
        (arcSet 3 30 0 pre).map (fun post => decide
          (post.t1.length + post.b1.length ≤ post.size)) = some false)) = some true :=
  rfl

theorem arcUpsert_t1 (k v now : Nat) (s : ArcState) : (arcUpsert k v now s).t1 = s.t1 := rfl

theorem arcUpsert_t2 (k v now : Nat) (s : ArcState) : (arcUpsert k v now s).t2 = s.t2 := rfl

theorem arcUpsert_b1 (k v now : Nat) (s : ArcState) : (arcUpsert k v now s).b1 = s.b1 := rfl

theorem arcUpsert_b2 (k v now : Nat) (s : ArcState) : (arcUpsert k v now s).b2 = s.b2 := rfl

theorem arcUpsert_size (k v now : Nat) (s : ArcState) : (arcUpsert k v now s).size = s.size := rfl

/-- **C3, amended.** For a key new to all four lists, whenever *the cache
is resident-full and* `|T1| + |B1| = capacity`, `set` handles the L1-full
case exactly as described: upsert, then if `|T1| < capacity` drop B1's
tail and run `replace(k)`, else drop T1's tail and delete the popped
resident entry (firing the evicted callback); either way the key is then
pushed to T1's front with the added callback. -/
theorem arc_set_l1_full_amended (k v now : Nat) (s : ArcState)
    (h1 : k ∉ s.t1) (h2 : k ∉ s.t2) (h3 : k ∉ s.b1) (h4 : k ∉ s.b2)
    (hfull : s.t1.length + s.t2.length = s.size)
    (hl1 : s.t1.length + s.b1.length = s.size) :
    arcSet k v now s =
      (if s.t1.length < s.size then
        (arcRemoveTail s.b1).bind fun p =>
          (arcReplace k { arcUpsert k v now s with b1 := p.2 }).map (arcFinishNew k v)
      else
        (arcRemoveTail s.t1).map fun p =>
          arcFinishNew k v (arcDeleteItem p.1 { arcUpsert k v now s with t1 := p.2 })) := by
  unfold arcSet
  rw [if_neg (by simp [arcUpsert_t1, arcUpsert_t2, h1, h2]),
      if_neg (by simp [arcUpsert_b1, h3]),
      if_neg (by simp [arcUpsert_b2, h4]),
      if_pos (by constructor
                 · simp [arcIsCacheFull, arcUpsert_t1, arcUpsert_t2, arcUpsert_size, hfull]
                 · simp [arcUpsert_t1, arcUpsert_b1, arcUpsert_size, hl1])]
  rfl

/-- Witness for the amended C3 at a concrete resident-full state (the
`|T1| = capacity` branch: T1's tail is popped and its entry deleted). -/
theorem arc_set_l1_full_amended_witness :
    ((9 : Nat) ∉ ([5] : List Nat) ∧ (9 : Nat) ∉ ([] : List Nat) ∧
      (1 : Nat) + 0 = 1) ∧
    arcSet 9 3 0 ⟨[(5, ⟨7, none⟩)], 0, 1, [5], [], [], [], none, 0, 0, [], []⟩ =
      some ⟨[(9, ⟨3, none⟩)], 0, 1, [9], [], [], [], none, 0, 0, [(9, 3)], [(5, 7)]⟩ :=
  ⟨⟨by decide, by decide, by decide⟩,
    (arc_set_l1_full_amended 9 3 0
      ⟨[(5, ⟨7, none⟩)], 0, 1, [5], [], [], [], none, 0, 0, [], []⟩
      (by decide) (by decide) (by decide) (by decide) (by decide) (by decide)).trans
      (by decide)⟩

/-! ## C5 — `Group.Do` in deferred mode -/

/-- **C5.** When a descriptor for the key is already installed and
`isWait = false` (and the preceding internal cache get missed, which is
what reaches the descriptor check), `Do` returns
`(nil, false, KeyNotFoundError)` with the cache state untouched by `fn`,
no inline `fn` run, no background dispatch and no block on the
completion; and in deferred mode no caller ever blocks on the in-flight
completion, in any branch. -/
theorem groupDo_deferred_never_blocks :
    (∀ (σ : Type) (getOnLoad : σ → Option (Option Nat × σ)) (iv : Option Nat)
        (ie : Option CErr) (fn : σ → (Option Nat × Option CErr) × σ) (s s₁ : σ),
        getOnLoad s = some (none, s₁) →
        groupDo getOnLoad true iv ie fn false s =
          some ⟨none, false, some CErr.keyNotFound, s₁, false, false, false⟩) ∧
    (∀ (σ : Type) (getOnLoad : σ → Option (Option Nat × σ)) (descriptorExists : Bool)
        (iv : Option Nat) (ie : Option CErr) (fn : σ → (Option Nat × Option CErr) × σ)
        (s : σ) (o : DoOutcome σ),
        groupDo getOnLoad descriptorExists iv ie fn false s = some o →
        o.waited = false) := by
  constructor
  · intro σ g iv ie fn s s₁ h
    unfold groupDo
    rw [h]
    rfl
  · intro σ g de iv ie fn s o h
    unfold groupDo at h
    cases hg : g s with
    | none => rw [hg] at h; exact absurd h (by simp)
    | some r =>
      obtain ⟨rv, s₁⟩ := r
      rw [hg] at h
      cases rv with
      | some v =>
        simp only [Option.some.injEq] at h
        rw [← h]
      | none =>
        cases de with
        | true =>
          simp only [if_true, Bool.false_eq_true, if_false, Option.some.injEq] at h
          rw [← h]
        | false =>
          simp only [if_false, Bool.false_eq_true, Option.some.injEq] at h
          rw [← h]

/-- Witness for C5: a descriptor is installed, the internal get misses,
and deferred `Do` returns the `KeyNotFoundError` triple with the state
untouched by the (state-bumping) `fn`. -/
theorem groupDo_deferred_never_blocks_witness :
    ((fun (s : Nat) => some ((none : Option Nat), s)) 0 = some (none, 0)) ∧
    groupDo (fun (s : Nat) => some (none, s)) true none none
      (fun s => ((some 1, none), s + 7)) false 0 =
      some ⟨none, false, some CErr.keyNotFound, 0, false, false, false⟩ :=
  ⟨rfl, groupDo_deferred_never_blocks.1 Nat _ none none _ 0 0 rfl⟩

/-! ## C9 — `GetIfPresent` never surfaces a loader error -/

theorem loadFlow_deferred_shape {σ : Type} (getOnLoad : σ → Option (Option Nat × σ))
    (de : Bool) (iv : Option Nat) (ie : Option CErr)
    (fn : σ → (Option Nat × Option CErr) × σ) (s : σ)
    (r : Option Nat × Option CErr) (s' : σ)
    (h : loadFlow getOnLoad de iv ie fn false s = some (r, s')) :
    (∃ v, r = (some v, none)) ∨ r = (none, some CErr.keyNotFound) := by
  unfold loadFlow groupDo at h
  cases hg : getOnLoad s with
  | none => rw [hg] at h; exact absurd h (by simp)
  | some p =>
    obtain ⟨rv, s₁⟩ := p
    rw [hg] at h
    cases rv with
    | some v =>
      simp only [Option.map_some', Option.some.injEq, Prod.mk.injEq] at h
      exact Or.inl ⟨v, h.1.symm⟩
    | none =>
      cases de with
      | true =>
        simp only [if_true, Bool.false_eq_true, if_false, Option.map_some',
          Option.some.injEq, Prod.mk.injEq] at h
        exact Or.inr h.1.symm
      | false =>
        simp only [if_false, Bool.false_eq_true, Option.map_some',
          Option.some.injEq, Prod.mk.injEq] at h
        exact Or.inr h.1.symm

/-- **C9.** For every policy, a completed `GetIfPresent` returns either a
value with nil error or the `KeyNotFoundError` sentinel; a loader failure
in deferred mode stays inside the background task and never reaches the
caller. -/
theorem getIfPresent_never_surfaces_loader_error :
    (∀ (k now : Nat) (ldr : Option LoaderRes) (de : Bool) (iv : Option Nat)
        (ie : Option CErr) (s : SimpleState) (r : Option Nat × Option CErr)
        (s' : SimpleState),
        simpleGetIfPresent k now ldr de iv ie s = some (r, s') →
        (∃ v, r = (some v, none)) ∨ r = (none, some CErr.keyNotFound)) ∧
    (∀ (k now : Nat) (ldr : Option LoaderRes) (de : Bool) (iv : Option Nat)
        (ie : Option CErr) (s : LruState) (r : Option Nat × Option CErr)
        (s' : LruState),
        lruGetIfPresent k now ldr de iv ie s = some (r, s') →
        (∃ v, r = (some v, none)) ∨ r = (none, some CErr.keyNotFound)) ∧
    (∀ (k now : Nat) (ldr : Option LoaderRes) (de : Bool) (iv : Option Nat)
        (ie : Option CErr) (s : LfuState) (r : Option Nat × Option CErr)
        (s' : LfuState),
        lfuGetIfPresent k now ldr de iv ie s = some (r, s') →
        (∃ v, r = (some v, none)) ∨ r = (none, some CErr.keyNotFound)) ∧
    (∀ (k now : Nat) (ldr : Option LoaderRes) (de : Bool) (iv : Option Nat)
        (ie : Option CErr) (s : ArcState) (r : Option Nat × Option CErr)
        (s' : ArcState),
        arcGetIfPresent k now ldr de iv ie s = some (r, s') →
        (∃ v, r = (some v, none)) ∨ r = (none, some CErr.keyNotFound)) := by
  refine ⟨?_, ?_, ?_, ?_⟩
  · intro k now ldr de iv ie s r s' h
    unfold simpleGetIfPresent at h
    cases hg : simpleGetValue k now false s with
    | mk rv s₁ =>
      rw [hg] at h
      cases rv with
      | some v =>
        simp only [Option.some.injEq, Prod.mk.injEq] at h
        exact Or.inl ⟨v, h.1.symm⟩
      | none =>
        unfold simpleGetWithLoader at h
        cases ldr with
        | none =>
          simp only [Option.some.injEq, Prod.mk.injEq] at h
          exact Or.inr h.1.symm
        | some lr => exact loadFlow_deferred_shape _ de iv ie _ s₁ r s' h
  · intro k now ldr de iv ie s r s' h
    unfold lruGetIfPresent at h
    cases hg : lruGetValue k now false s with
    | mk rv s₁ =>
      rw [hg] at h
      cases rv with
      | some v =>
        simp only [Option.some.injEq, Prod.mk.injEq] at h
        exact Or.inl ⟨v, h.1.symm⟩
      | none =>
        unfold lruGetWithLoader at h
        cases ldr with
        | none =>
          simp only [Option.some.injEq, Prod.mk.injEq] at h
          exact Or.inr h.1.symm
        | some lr => exact loadFlow_deferred_shape _ de iv ie _ s₁ r s' h
  · intro k now ldr de iv ie s r s' h
    unfold lfuGetIfPresent at h
    cases hg : lfuGetValue k now false s with
    | none => rw [hg] at h; exact absurd h (by simp)
    | some p =>
      obtain ⟨rv, s₁⟩ := p
      rw [hg] at h
      cases rv with
      | some v =>
        simp only [Option.some_bind, Option.some.injEq, Prod.mk.injEq] at h
        exact Or.inl ⟨v, h.1.symm⟩
      | none =>
        simp only [Option.some_bind] at h
        unfold lfuGetWithLoader at h
        cases ldr with
        | none =>
          simp only [Option.some.injEq, Prod.mk.injEq] at h
          exact Or.inr h.1.symm
        | some lr => exact loadFlow_deferred_shape _ de iv ie _ s₁ r s' h
  · intro k now ldr de iv ie s r s' h
    unfold arcGetIfPresent at h
    cases hg : arcGetValue k now false s with
    | none => rw [hg] at h; exact absurd h (by simp)
    | some p =>
      obtain ⟨rv, s₁⟩ := p
      rw [hg] at h
      cases rv with
      | some v =>
        simp only [Option.some_bind, Option.some.injEq, Prod.mk.injEq] at h
        exact Or.inl ⟨v, h.1.symm⟩
      | none =>
        simp only [Option.some_bind] at h
        unfold arcGetWithLoader at h
        cases ldr with
        | none =>
          simp only [Option.some.injEq, Prod.mk.injEq] at h
          exact Or.inr h.1.symm
        | some lr => exact loadFlow_deferred_shape _ de iv ie _ s₁ r s' h

/-- Witness for C9: a cold `GetIfPresent` with a failing loader returns
the `KeyNotFoundError` sentinel, not the loader's error. -/
theorem getIfPresent_never_surfaces_loader_error_witness :
    (simpleGetIfPresent 1 0 (some (42, none, some (CErr.loaderFail 5))) false none none
        (simpleInit 1) = some ((none, some CErr.keyNotFound), ⟨[], 1, none, 0, 1, [], []⟩)) ∧
    ((∃ v, ((none : Option Nat), (some CErr.keyNotFound : Option CErr)) = (some v, none)) ∨
      ((none : Option Nat), (some CErr.keyNotFound : Option CErr)) =
        (none, some CErr.keyNotFound)) :=
  ⟨rfl, getIfPresent_never_surfaces_loader_error.1 1 0
    (some (42, none, some (CErr.loaderFail 5))) false none none (simpleInit 1)
    (none, some CErr.keyNotFound) ⟨[], 1, none, 0, 1, [], []⟩ rfl⟩

/-! ## C8 — read-only accessors have no effect on cache state

`GetALL`, `Keys`, `Len` and `Has` only read the entry map (under a lock);
their bodies assign to no cache field, so modelled as state transformers
they return the entry state unchanged — in particular the recency /
frequency / ARC lists and the `hits`/`misses` counters (all fields of the
state) are untouched, and the returned key/value snapshots are plain
values, independent of any later mutation of the cache. -/

/-- **C8.** For every policy, `Keys`, `Len`, `GetALL` and `Has` leave the
cache state — entry map, LRU order, LFU buckets, ARC lists and both stats
counters — unchanged. -/
theorem read_ops_leave_state_unchanged :
    (∀ (ce : Bool) (rn k : Nat) (s : SimpleState),
      (readOp (simpleKeys ce rn) s).2 = s ∧ (readOp (simpleLen ce rn) s).2 = s ∧
      (readOp (simpleGetAll ce rn) s).2 = s ∧ (readOp (simpleHas k rn) s).2 = s) ∧
    (∀ (ce : Bool) (rn k : Nat) (s : LruState),
      (readOp (lruKeys ce rn) s).2 = s ∧ (readOp (lruLen ce rn) s).2 = s ∧
      (readOp (lruGetAll ce rn) s).2 = s ∧ (readOp (lruHas k rn) s).2 = s) ∧
    (∀ (ce : Bool) (rn k : Nat) (s : LfuState),
      (readOp (lfuKeys ce rn) s).2 = s ∧ (readOp (lfuLen ce rn) s).2 = s ∧
      (readOp (lfuGetAll ce rn) s).2 = s ∧ (readOp (lfuHas k rn) s).2 = s) ∧
    (∀ (ce : Bool) (rn k : Nat) (s : ArcState),
      (readOp (arcKeys ce rn) s).2 = s ∧ (readOp (arcLen ce rn) s).2 = s ∧
      (readOp (arcGetAll ce rn) s).2 = s ∧ (readOp (arcHas k rn) s).2 = s) :=
  ⟨fun _ _ _ _ => ⟨rfl, rfl, rfl, rfl⟩, fun _ _ _ _ => ⟨rfl, rfl, rfl, rfl⟩,
   fun _ _ _ _ => ⟨rfl, rfl, rfl, rfl⟩, fun _ _ _ _ => ⟨rfl, rfl, rfl, rfl⟩⟩

/-! ## C2 — the LFU increment protocol -/

/-- A bucket list that is strictly ascending never triggers the fatal
`panic("LFU freq element unreachable")` branch of `increment`. -/
theorem lfuIncrement_sorted_some (k : Nat) (cur : FreqEntry) (post : List FreqEntry)
    (h : (cur :: post).Pairwise fun a b => a.freq < b.freq) :
    (lfuIncrement k cur post).isSome := by
  cases post with
  | nil =>
    simp only [lfuIncrement]
    split <;> rfl
  | cons nx rest =>
    have hlt : cur.freq < nx.freq := (List.pairwise_cons.mp h).1 nx (by simp)
    simp only [lfuIncrement]
    split
    · split <;> rfl
    · split
      · split <;> rfl
      · rename_i h1 h2
        omega

/-- **C2.** A hit on an entry in bucket `cur` (frequency `f`, with `pre`
the untouched prefix of the bucket list before `cur` and `post` the
suffix after it) moves the entry to a bucket of frequency `f + 1`:
under the strict-ascent invariant `increment` never hits its fatal
branch, afterwards the bucket frequencies are still strictly ascending,
and the entry sits in a bucket of frequency `f + 1` (relabelled `cur`
when removable, a freshly spliced bucket, or the joined successor, per
the source's case split).  Moreover the fatal branch is taken exactly
when the successor's frequency is below `f + 1`. -/
theorem lfu_increment_moves_to_next_freq :
    (∀ (k : Nat) (pre post : List FreqEntry) (cur : FreqEntry),
        freqAscending (pre ++ cur :: post) →
        ∃ seg, lfuIncrement k cur post = some seg ∧
          freqAscending (pre ++ seg) ∧
          ∃ b ∈ seg, b.freq = cur.freq + 1 ∧ k ∈ b.items) ∧
    (∀ (k : Nat) (cur : FreqEntry) (post : List FreqEntry),
        lfuIncrement k cur post = none ↔
          ∃ nx rest, post = nx :: rest ∧ nx.freq < cur.freq + 1) := by
  constructor
  · intro k pre post cur h
    rw [freqAscending, List.pairwise_append] at h
    obtain ⟨hpre, hmid, hcross⟩ := h
    rw [List.pairwise_cons] at hmid
    obtain ⟨hcurlt, hpost⟩ := hmid
    have hcrosscur : ∀ a ∈ pre, a.freq < cur.freq := fun a ha => hcross a ha cur (by simp)
    cases post with
    | nil =>
      simp only [lfuIncrement]
      split
      · refine ⟨[⟨cur.freq + 1, [k]⟩], rfl, ?_, ⟨cur.freq + 1, [k]⟩, by simp, rfl, by simp⟩
        rw [freqAscending, List.pairwise_append]
        exact ⟨hpre, by simp, fun a ha b hb => by
          simp at hb
          rw [hb]
          exact Nat.lt_succ_of_lt (hcrosscur a ha)⟩
      · refine ⟨[⟨cur.freq, cur.items.erase k⟩, ⟨cur.freq + 1, [k]⟩], rfl, ?_,
          ⟨cur.freq + 1, [k]⟩, by simp, rfl, by simp⟩
        rw [freqAscending, List.pairwise_append]
        refine ⟨hpre, by simp, fun a ha b hb => ?_⟩
        simp at hb
        rcases hb with hb | hb <;> rw [hb]
        · exact hcrosscur a ha
        · exact Nat.lt_succ_of_lt (hcrosscur a ha)
    | cons nx rest =>
      have hnx : cur.freq < nx.freq := hcurlt nx (by simp)
      have hnxrest : ∀ b ∈ rest, nx.freq < b.freq := (List.pairwise_cons.mp hpost).1
      have hrest : rest.Pairwise fun a b => a.freq < b.freq := (List.pairwise_cons.mp hpost).2
      have hcrossrest : ∀ a ∈ pre, ∀ b ∈ rest, a.freq < b.freq :=
        fun a ha b hb => hcross a ha b (by simp [hb])
      simp only [lfuIncrement]
      split
      · rename_i hgt
        split
        · refine ⟨⟨cur.freq + 1, [k]⟩ :: nx :: rest, rfl, ?_,
            ⟨cur.freq + 1, [k]⟩, by simp, rfl, by simp⟩
          rw [freqAscending, List.pairwise_append]
          refine ⟨hpre, ?_, fun a ha b hb => ?_⟩
          · rw [List.pairwise_cons]
            refine ⟨fun b hb => ?_, hpost⟩
            simp at hb
            rcases hb with hb | hb
            · rw [hb]; exact hgt
            · exact Nat.lt_trans hgt (hnxrest b hb)
          · simp at hb
            rcases hb with hb | hb | hb
            · rw [hb]; exact Nat.lt_succ_of_lt (hcrosscur a ha)
            · rw [hb]; exact hcross a ha nx (by simp)
            · exact hcrossrest a ha b hb
        · refine ⟨⟨cur.freq, cur.items.erase k⟩ :: ⟨cur.freq + 1, [k]⟩ :: nx :: rest, rfl, ?_,
            ⟨cur.freq + 1, [k]⟩, by simp, rfl, by simp⟩
          rw [freqAscending, List.pairwise_append]
          refine ⟨hpre, ?_, fun a ha b hb => ?_⟩
          · rw [List.pairwise_cons]
            refine ⟨fun b hb => ?_, ?_⟩
            · simp at hb
              rcases hb with hb | hb | hb
              · rw [hb]; exact Nat.lt_succ_self _
              · rw [hb]; exact Nat.lt_trans (Nat.lt_succ_self _) hgt
              · exact Nat.lt_trans hnx (hnxrest b hb)
            · rw [List.pairwise_cons]
              refine ⟨fun b hb => ?_, ?_⟩
              · simp at hb
                rcases hb with hb | hb
                · rw [hb]; exact hgt
                · exact Nat.lt_trans hgt (hnxrest b hb)
              · rw [List.pairwise_cons]
                exact ⟨hnxrest, hrest⟩
          · simp at hb
            rcases hb with hb | hb | hb | hb
            · rw [hb]; exact hcrosscur a ha
            · rw [hb]; exact Nat.lt_succ_of_lt (hcrosscur a ha)
            · rw [hb]; exact hcross a ha nx (by simp)
            · exact hcrossrest a ha b hb
      · rename_i hngt
        split
        · rename_i heq
          split
          · refine ⟨⟨nx.freq, k :: nx.items⟩ :: rest, rfl, ?_,
              ⟨nx.freq, k :: nx.items⟩, by simp, heq, by simp⟩
            rw [freqAscending, List.pairwise_append]
            refine ⟨hpre, ?_, fun a ha b hb => ?_⟩
            · rw [List.pairwise_cons]
              exact ⟨hnxrest, hrest⟩
            · simp at hb
              rcases hb with hb | hb
              · rw [hb]; exact hcross a ha nx (by simp)
              · exact hcrossrest a ha b hb
          · refine ⟨⟨cur.freq, cur.items.erase k⟩ :: ⟨nx.freq, k :: nx.items⟩ :: rest, rfl, ?_,
              ⟨nx.freq, k :: nx.items⟩, by simp, heq, by simp⟩
            rw [freqAscending, List.pairwise_append]
            refine ⟨hpre, ?_, fun a ha b hb => ?_⟩
            · rw [List.pairwise_cons]
              refine ⟨fun b hb => ?_, ?_⟩
              · simp at hb
                rcases hb with hb | hb
                · rw [hb]; exact hnx
                · exact Nat.lt_trans hnx (hnxrest b hb)
              · rw [List.pairwise_cons]
                exact ⟨hnxrest, hrest⟩
            · simp at hb
              rcases hb with hb | hb | hb
              · rw [hb]; exact hcrosscur a ha
              · rw [hb]; exact hcross a ha nx (by simp)
              · exact hcrossrest a ha b hb
        · rename_i hne
          exact absurd (hcurlt nx (by simp)) (by omega)
  · intro k cur post
    cases post with
    | nil =>
      simp only [lfuIncrement]
      constructor
      · intro h
        split at h <;> exact absurd h (by simp)
      · rintro ⟨nx, rest, h, _⟩
        exact absurd h (by simp)
    | cons nx rest =>
      simp only [lfuIncrement]
      constructor
      · intro h
        split at h
        · split at h <;> exact absurd h (by simp)
        · split at h
          · split at h <;> exact absurd h (by simp)
          · rename_i h1 h2
            exact ⟨nx, rest, rfl, by omega⟩
      · rintro ⟨nx', rest', heq, hlt⟩
        injection heq with e1 e2
        subst e1
        split
        · rename_i hgt
          exact absurd hlt (by omega)
        · split
          · rename_i heq2
            exact absurd hlt (by omega)
          · rfl

/-- Witness for C2: promoting key 5 out of bucket `⟨1, [5]⟩` between
buckets `⟨0, [9]⟩` and `⟨3, [7]⟩` relabels the emptied bucket to
frequency 2. -/
theorem lfu_increment_moves_to_next_freq_witness :
    freqAscending [⟨0, [9]⟩, ⟨1, [5]⟩, ⟨3, [7]⟩] ∧
    ∃ seg, lfuIncrement 5 ⟨1, [5]⟩ [⟨3, [7]⟩] = some seg ∧
      freqAscending ([⟨0, [9]⟩] ++ seg) ∧
      ∃ b ∈ seg, b.freq = (⟨1, [5]⟩ : FreqEntry).freq + 1 ∧ 5 ∈ b.items :=
  ⟨by unfold freqAscending; decide,
    lfu_increment_moves_to_next_freq.1 5 [⟨0, [9]⟩] [⟨3, [7]⟩] ⟨1, [5]⟩
      (by unfold freqAscending; decide)⟩

/-! ## C6 — hit/miss accounting

Stats-preservation lemmas for every state transformer on the loader path,
the exactly-one-count lemmas for the user-visible `getValue`, and the
composed `Get` / `GetIfPresent` pipelines. -/

theorem simpleSet_stats (k v now : Nat) (s : SimpleState) :
    simpleStats (simpleSet k v now s) = simpleStats s := by
  unfold simpleSet simpleEvictOne simpleRemove simpleStats
  repeat' split
  all_goals rfl

theorem lruSet_stats (k v now : Nat) (s : LruState) :
    lruStats (lruSet k v now s) = lruStats s := by
  unfold lruSet lruEvictOne lruRemoveElement lruStats
  repeat' split
  all_goals rfl

theorem lfuEvictOne_stats (s : LfuState) : lfuStats (lfuEvictOne s) = lfuStats s := by
  unfold lfuEvictOne lfuRemoveItem lfuStats
  repeat' split
  all_goals rfl

theorem lfuSet_stats (k v now : Nat) (s s' : LfuState)
    (h : lfuSet k v now s = some s') : lfuStats s' = lfuStats s := by
  unfold lfuSet at h
  cases hl : s.items.lookup k with
  | some it =>
    rw [hl] at h
    injection h with h
    rw [← h]
    rfl
  | none =>
    rw [hl] at h
    by_cases hc : s.size ≤ s.items.length
    · simp only [hc, if_true] at h
      cases hf : (lfuEvictOne s).freqList with
      | nil => rw [hf] at h; exact absurd h (by simp)
      | cons head rest =>
        rw [hf] at h
        injection h with h
        rw [← h]
        have := lfuEvictOne_stats s
        unfold lfuStats at *
        simp only [← this]
    · simp only [hc, if_false] at h
      cases hf : s.freqList with
      | nil => rw [hf] at h; exact absurd h (by simp)
      | cons head rest =>
        rw [hf] at h
        injection h with h
        rw [← h]
        rfl

theorem arcDeleteItem_stats (old : Nat) (s : ArcState) :
    arcStats (arcDeleteItem old s) = arcStats s := by
  unfold arcDeleteItem arcStats
  repeat' split
  all_goals rfl

theorem arcReplace_stats (k : Nat) (s s' : ArcState) (h : arcReplace k s = some s') :
    arcStats s' = arcStats s := by
  unfold arcReplace at h
  repeat' split at h
  · injection h with h
    rw [← h]
  all_goals
    rw [Option.map_eq_some'] at h
  all_goals
    obtain ⟨p, hp, hf⟩ := h
  all_goals
    rw [← hf]
  all_goals
    exact arcDeleteItem_stats p.1 _

theorem arcSetPart_stats (p : Nat) (s : ArcState) :
    arcStats (arcSetPart p s) = arcStats s := by
  unfold arcSetPart
  split <;> rfl

theorem arcSet_stats (k v now : Nat) (s s' : ArcState)
    (h : arcSet k v now s = some s') : arcStats s' = arcStats s := by
  unfold arcSet at h
  have hup : arcStats (arcUpsert k v now s) = arcStats s := rfl
  rw [← hup]
  dsimp only [] at h
  repeat' split at h
  all_goals (
    first
      | (injection h with h; rw [← h])
      | skip)
  · rw [Option.map_eq_some'] at h
    obtain ⟨u, hu, hf⟩ := h
    rw [← hf]
    exact (arcReplace_stats k _ u hu).trans (arcSetPart_stats _ _)
  · rw [Option.map_eq_some'] at h
    obtain ⟨u, hu, hf⟩ := h
    rw [← hf]
    exact (arcReplace_stats k _ u hu).trans (arcSetPart_stats _ _)
  · rw [Option.bind_eq_some] at h
    obtain ⟨p, hp, h⟩ := h
    rw [Option.map_eq_some'] at h
    obtain ⟨u, hu, hf⟩ := h
    rw [← hf]
    exact arcReplace_stats k { arcUpsert k v now s with b1 := p.2 } u hu
  · rw [Option.map_eq_some'] at h
    obtain ⟨p, hp, hf⟩ := h
    rw [← hf]
    exact arcDeleteItem_stats p.1 _
  · rw [Option.map_eq_some'] at h
    obtain ⟨u, hu, hf⟩ := h
    rw [Option.bind_eq_some] at hu
    obtain ⟨w, hw, hr⟩ := hu
    rw [Option.map_eq_some'] at hw
    obtain ⟨p, hp, hw2⟩ := hw
    rw [← hf]
    exact (arcReplace_stats k w u hr).trans (by rw [← hw2]; rfl)
  · rw [Option.map_eq_some'] at h
    obtain ⟨u, hu, hf⟩ := h
    rw [Option.bind_eq_some] at hu
    obtain ⟨w, hw, hr⟩ := hu
    rw [Option.map_eq_some'] at hw
    obtain ⟨p, hp, hw2⟩ := hw
    rw [← hf]
    exact (arcReplace_stats k w u hr).trans (by rw [← hw2]; rfl)
  · simp only [Option.some_bind] at h
    rw [Option.map_eq_some'] at h
    obtain ⟨u, hu, hf⟩ := h
    rw [← hf]
    exact arcReplace_stats k _ u hu
  · rfl

theorem simpleGetValue_onload_stats (k now : Nat) (s : SimpleState) :
    simpleStats (simpleGetValue k now true s).2 = simpleStats s := by
  unfold simpleGetValue simpleRemove simpleStats
  repeat' split
  all_goals first
    | rfl
    | simp_all

theorem simpleGetValue_user_stats (k now : Nat) (s : SimpleState) :
    oneMoreLookup (simpleStats (simpleGetValue k now false s).2) (simpleStats s) := by
  unfold simpleGetValue simpleRemove simpleStats oneMoreLookup
  repeat' split
  all_goals first
    | exact Or.inl ⟨rfl, rfl⟩
    | exact Or.inr ⟨rfl, rfl⟩
    | simp_all

theorem lruGetValue_onload_stats (k now : Nat) (s : LruState) :
    lruStats (lruGetValue k now true s).2 = lruStats s := by
  unfold lruGetValue lruRemoveElement lruStats
  repeat' split
  all_goals first
    | rfl
    | simp_all

theorem lruGetValue_user_stats (k now : Nat) (s : LruState) :
    oneMoreLookup (lruStats (lruGetValue k now false s).2) (lruStats s) := by
  unfold lruGetValue lruRemoveElement lruStats oneMoreLookup
  repeat' split
  all_goals first
    | exact Or.inl ⟨rfl, rfl⟩
    | exact Or.inr ⟨rfl, rfl⟩
    | simp_all

theorem lfuRemoveItem_stats (k : Nat) (s : LfuState) :
    lfuStats (lfuRemoveItem k s) = lfuStats s := by
  unfold lfuRemoveItem lfuStats
  repeat' split
  all_goals rfl

theorem lfuGetValue_onload_stats (k now : Nat) (s : LfuState) (r : Option Nat × LfuState)
    (h : lfuGetValue k now true s = some r) : lfuStats r.2 = lfuStats s := by
  unfold lfuGetValue at h
  repeat' split at h
  all_goals first
    | (rw [Option.map_eq_some'] at h
       obtain ⟨fl, hfl, hf⟩ := h
       rw [← hf]
       rfl)
    | (injection h with h; rw [← h]; exact lfuRemoveItem_stats k s)
    | (injection h with h; rw [← h]; rfl)
    | (rw [← h]; exact lfuRemoveItem_stats k s)
    | (rw [← h]; rfl)
    | simp_all

theorem lfuGetValue_user_stats (k now : Nat) (s : LfuState) (r : Option Nat × LfuState)
    (h : lfuGetValue k now false s = some r) :
    oneMoreLookup (lfuStats r.2) (lfuStats s) := by
  have hf : (lfuRemoveItem k s).hits = s.hits := congrArg Prod.fst (lfuRemoveItem_stats k s)
  have hs : (lfuRemoveItem k s).misses = s.misses :=
    congrArg Prod.snd (lfuRemoveItem_stats k s)
  unfold lfuGetValue at h
  repeat' split at h
  all_goals first
    | (rw [Option.map_eq_some'] at h
       obtain ⟨fl, hfl, hf⟩ := h
       rw [← hf]
       exact Or.inl ⟨rfl, rfl⟩)
    | (injection h with h; rw [← h]
       exact Or.inr ⟨hf, congrArg (fun n => n + 1) hs⟩)
    | (injection h with h; rw [← h]; exact Or.inr ⟨rfl, rfl⟩)
    | (rw [← h]
       exact Or.inr ⟨hf, congrArg (fun n => n + 1) hs⟩)
    | (rw [← h]; exact Or.inr ⟨rfl, rfl⟩)
    | simp_all

theorem arcGetStep2_onload_stats (k now : Nat) (s : ArcState) (r : Option Nat × ArcState)
    (h : arcGetStep2 k now true s = some r) : arcStats r.2 = arcStats s := by
  unfold arcGetStep2 at h
  repeat' split at h
  all_goals first
    | (injection h with h; rw [← h]; rfl)
    | simp_all

theorem arcGetValue_onload_stats (k now : Nat) (s : ArcState) (r : Option Nat × ArcState)
    (h : arcGetValue k now true s = some r) : arcStats r.2 = arcStats s := by
  unfold arcGetValue at h
  repeat' split at h
  all_goals first
    | (injection h with h; rw [← h]; rfl)
    | (rw [← h]; rfl)
    | (have h3 := arcGetStep2_onload_stats k now _ r h; exact h3)
    | simp_all

theorem arcGetStep2_user_stats (k now : Nat) (s : ArcState) (r : Option Nat × ArcState)
    (h : arcGetStep2 k now false s = some r) :
    oneMoreLookup (arcStats r.2) (arcStats s) := by
  unfold arcGetStep2 at h
  repeat' split at h
  all_goals first
    | (injection h with h; rw [← h]; exact Or.inl ⟨rfl, rfl⟩)
    | (injection h with h; rw [← h]; exact Or.inr ⟨rfl, rfl⟩)
    | simp_all

theorem arcGetValue_user_stats (k now : Nat) (s : ArcState) (r : Option Nat × ArcState)
    (h : arcGetValue k now false s = some r) :
    oneMoreLookup (arcStats r.2) (arcStats s) := by
  unfold arcGetValue at h
  repeat' split at h
  all_goals first
    | (injection h with h; rw [← h]; exact Or.inl ⟨rfl, rfl⟩)
    | (rw [← h]; exact Or.inl ⟨rfl, rfl⟩)
    | (have h3 := arcGetStep2_user_stats k now _ r h; exact h3)
    | simp_all

theorem groupDo_stats {σ : Type} (proj : σ → Nat × Nat)
    (getOnLoad : σ → Option (Option Nat × σ))
    (hget : ∀ s r s₁, getOnLoad s = some (r, s₁) → proj s₁ = proj s)
    (fn : σ → (Option Nat × Option CErr) × σ)
    (hfn : ∀ s, proj (fn s).2 = proj s)
    (de : Bool) (iv : Option Nat) (ie : Option CErr) (w : Bool) (s : σ)
    (o : DoOutcome σ) (h : groupDo getOnLoad de iv ie fn w s = some o) :
    proj o.state = proj s := by
  unfold groupDo at h
  cases hg : getOnLoad s with
  | none => rw [hg] at h; exact absurd h (by simp)
  | some p =>
    obtain ⟨rv, s₁⟩ := p
    rw [hg] at h
    have hs₁ : proj s₁ = proj s := hget s rv s₁ hg
    cases rv with
    | some v =>
      injection h with h
      rw [← h]
      exact hs₁
    | none =>
      cases de with
      | true =>
        cases w with
        | true =>
          simp only [if_true] at h
          injection h with h
          rw [← h]
          exact hs₁
        | false =>
          simp only [if_true, Bool.false_eq_true, if_false] at h
          injection h with h
          rw [← h]
          exact hs₁
      | false =>
        cases w with
        | true =>
          simp only [Bool.false_eq_true, if_false, if_true] at h
          injection h with h
          rw [← h]
          exact (hfn s₁).trans hs₁
        | false =>
          simp only [Bool.false_eq_true, if_false] at h
          injection h with h
          rw [← h]
          exact (hfn s₁).trans hs₁

theorem loadFlow_stats {σ : Type} (proj : σ → Nat × Nat)
    (getOnLoad : σ → Option (Option Nat × σ))
    (hget : ∀ s r s₁, getOnLoad s = some (r, s₁) → proj s₁ = proj s)
    (fn : σ → (Option Nat × Option CErr) × σ)
    (hfn : ∀ s, proj (fn s).2 = proj s)
    (de : Bool) (iv : Option Nat) (ie : Option CErr) (w : Bool) (s : σ)
    (r : Option Nat × Option CErr) (s' : σ)
    (h : loadFlow getOnLoad de iv ie fn w s = some (r, s')) :
    proj s' = proj s := by
  unfold loadFlow at h
  rw [Option.map_eq_some'] at h
  obtain ⟨o, ho, hf⟩ := h
  have hst := groupDo_stats proj getOnLoad hget fn hfn de iv ie w s o ho
  cases he : o.err with
  | none =>
    rw [he] at hf
    injection hf with h1 h2
    rw [← h2]
    exact hst
  | some e =>
    rw [he] at hf
    injection hf with h1 h2
    rw [← h2]
    exact hst

theorem simpleLoaderCb_stats (k now : Nat) (lr : LoaderRes) (s : SimpleState) :
    simpleStats (simpleLoaderCb k now lr s).2 = simpleStats s := by
  obtain ⟨v, d, e⟩ := lr
  unfold simpleLoaderCb
  cases e with
  | some e => rfl
  | none =>
    cases d with
    | none => exact simpleSet_stats k v now s
    | some d => exact simpleSet_stats k v now s

theorem lruLoaderCb_stats (k now : Nat) (lr : LoaderRes) (s : LruState) :
    lruStats (lruLoaderCb k now lr s).2 = lruStats s := by
  obtain ⟨v, d, e⟩ := lr
  unfold lruLoaderCb
  cases e with
  | some e => rfl
  | none =>
    cases d with
    | none => exact lruSet_stats k v now s
    | some d => exact lruSet_stats k v now s

theorem lfuLoaderCb_stats (k now : Nat) (lr : LoaderRes) (s : LfuState) :
    lfuStats (lfuLoaderCb k now lr s).2 = lfuStats s := by
  obtain ⟨v, d, e⟩ := lr
  unfold lfuLoaderCb
  cases e with
  | some e => rfl
  | none =>
    cases hs : lfuSet k v now s with
    | none => rfl
    | some u =>
      have hu := lfuSet_stats k v now s u hs
      cases d with
      | none => exact hu
      | some d => exact hu

theorem arcLoaderCb_stats (k now : Nat) (lr : LoaderRes) (s : ArcState) :
    arcStats (arcLoaderCb k now lr s).2 = arcStats s := by
  obtain ⟨v, d, e⟩ := lr
  unfold arcLoaderCb
  cases e with
  | some e => rfl
  | none =>
    cases hs : arcSet k v now s with
    | none => rfl
    | some u =>
      have hu := arcSet_stats k v now s u hs
      cases d with
      | none => exact hu
      | some d => exact hu

theorem simpleGetWithLoader_stats (k now : Nat) (ldr : Option LoaderRes) (de : Bool)
    (iv : Option Nat) (ie : Option CErr) (w : Bool) (s : SimpleState)
    (r : Option Nat × Option CErr) (s' : SimpleState)
    (h : simpleGetWithLoader k now ldr de iv ie w s = some (r, s')) :
    simpleStats s' = simpleStats s := by
  unfold simpleGetWithLoader at h
  cases ldr with
  | none =>
    injection h with h
    injection h with h1 h2
    rw [← h2]
  | some lr =>
    refine loadFlow_stats simpleStats _ ?_ _ (simpleLoaderCb_stats k now lr) de iv ie w s r s' h
    intro t rt t₁ ht
    injection ht with ht
    have h3 := simpleGetValue_onload_stats k now t
    rw [ht] at h3
    exact h3

theorem lruGetWithLoader_stats (k now : Nat) (ldr : Option LoaderRes) (de : Bool)
    (iv : Option Nat) (ie : Option CErr) (w : Bool) (s : LruState)
    (r : Option Nat × Option CErr) (s' : LruState)
    (h : lruGetWithLoader k now ldr de iv ie w s = some (r, s')) :
    lruStats s' = lruStats s := by
  unfold lruGetWithLoader at h
  cases ldr with
  | none =>
    injection h with h
    injection h with h1 h2
    rw [← h2]
  | some lr =>
    refine loadFlow_stats lruStats _ ?_ _ (lruLoaderCb_stats k now lr) de iv ie w s r s' h
    intro t rt t₁ ht
    injection ht with ht
    have h3 := lruGetValue_onload_stats k now t
    rw [ht] at h3
    exact h3

theorem lfuGetWithLoader_stats (k now : Nat) (ldr : Option LoaderRes) (de : Bool)
    (iv : Option Nat) (ie : Option CErr) (w : Bool) (s : LfuState)
    (r : Option Nat × Option CErr) (s' : LfuState)
    (h : lfuGetWithLoader k now ldr de iv ie w s = some (r, s')) :
    lfuStats s' = lfuStats s := by
  unfold lfuGetWithLoader at h
  cases ldr with
  | none =>
    injection h with h
    injection h with h1 h2
    rw [← h2]
  | some lr =>
    refine loadFlow_stats lfuStats _ ?_ _ (lfuLoaderCb_stats k now lr) de iv ie w s r s' h
    intro t rt t₁ ht
    exact lfuGetValue_onload_stats k now t (rt, t₁) ht

theorem arcGetWithLoader_stats (k now : Nat) (ldr : Option LoaderRes) (de : Bool)
    (iv : Option Nat) (ie : Option CErr) (w : Bool) (s : ArcState)
    (r : Option Nat × Option CErr) (s' : ArcState)
    (h : arcGetWithLoader k now ldr de iv ie w s = some (r, s')) :
    arcStats s' = arcStats s := by
  unfold arcGetWithLoader at h
  cases ldr with
  | none =>
    injection h with h
    injection h with h1 h2
    rw [← h2]
  | some lr =>
    refine loadFlow_stats arcStats _ ?_ _ (arcLoaderCb_stats k now lr) de iv ie w s r s' h
    intro t rt t₁ ht
    exact arcGetValue_onload_stats k now t (rt, t₁) ht

/-- **C6.** Internal gets on the loader path (`onLoad = true`) increment
neither counter, for every policy; and every completed top-level `Get` or
`GetIfPresent` — across the miss path, the single-flight internal get, the
loader callback and the store — increments exactly one of the hit or miss
counters exactly once. -/
theorem stats_counted_once_per_user_get :
    (∀ (k now : Nat) (s : SimpleState),
      simpleStats (simpleGetValue k now true s).2 = simpleStats s) ∧
    (∀ (k now : Nat) (s : LruState),
      lruStats (lruGetValue k now true s).2 = lruStats s) ∧
    (∀ (k now : Nat) (s : LfuState) (r : Option Nat × LfuState),
      lfuGetValue k now true s = some r → lfuStats r.2 = lfuStats s) ∧
    (∀ (k now : Nat) (s : ArcState) (r : Option Nat × ArcState),
      arcGetValue k now true s = some r → arcStats r.2 = arcStats s) ∧
    (∀ (k now : Nat) (ldr : Option LoaderRes) (de : Bool) (iv : Option Nat)
        (ie : Option CErr) (s : SimpleState) (r : Option Nat × Option CErr)
        (s' : SimpleState),
      simpleGet k now ldr de iv ie s = some (r, s') →
        oneMoreLookup (simpleStats s') (simpleStats s)) ∧
    (∀ (k now : Nat) (ldr : Option LoaderRes) (de : Bool) (iv : Option Nat)
        (ie : Option CErr) (s : SimpleState) (r : Option Nat × Option CErr)
        (s' : SimpleState),
      simpleGetIfPresent k now ldr de iv ie s = some (r, s') →
        oneMoreLookup (simpleStats s') (simpleStats s)) ∧
    (∀ (k now : Nat) (ldr : Option LoaderRes) (de : Bool) (iv : Option Nat)
        (ie : Option CErr) (s : LruState) (r : Option Nat × Option CErr)
        (s' : LruState),
      lruGet k now ldr de iv ie s = some (r, s') →
        oneMoreLookup (lruStats s') (lruStats s)) ∧
    (∀ (k now : Nat) (ldr : Option LoaderRes) (de : Bool) (iv : Option Nat)
        (ie : Option CErr) (s : LruState) (r : Option Nat × Option CErr)
        (s' : LruState),
      lruGetIfPresent k now ldr de iv ie s = some (r, s') →
        oneMoreLookup (lruStats s') (lruStats s)) ∧
    (∀ (k now : Nat) (ldr : Option LoaderRes) (de : Bool) (iv : Option Nat)
        (ie : Option CErr) (s : LfuState) (r : Option Nat × Option CErr)
        (s' : LfuState),
      lfuGet k now ldr de iv ie s = some (r, s') →
        oneMoreLookup (lfuStats s') (lfuStats s)) ∧
    (∀ (k now : Nat) (ldr : Option LoaderRes) (de : Bool) (iv : Option Nat)
        (ie : Option CErr) (s : LfuState) (r : Option Nat × Option CErr)
        (s' : LfuState),
      lfuGetIfPresent k now ldr de iv ie s = some (r, s') →
        oneMoreLookup (lfuStats s') (lfuStats s)) ∧
    (∀ (k now : Nat) (ldr : Option LoaderRes) (de : Bool) (iv : Option Nat)
        (ie : Option CErr) (s : ArcState) (r : Option Nat × Option CErr)
        (s' : ArcState),
      arcGet k now ldr de iv ie s = some (r, s') →
        oneMoreLookup (arcStats s') (arcStats s)) ∧
    (∀ (k now : Nat) (ldr : Option LoaderRes) (de : Bool) (iv : Option Nat)
        (ie : Option CErr) (s : ArcState) (r : Option Nat × Option CErr)
        (s' : ArcState),
      arcGetIfPresent k now ldr de iv ie s = some (r, s') →
        oneMoreLookup (arcStats s') (arcStats s)) := by
  refine ⟨simpleGetValue_onload_stats, lruGetValue_onload_stats,
    lfuGetValue_onload_stats, arcGetValue_onload_stats, ?_, ?_, ?_, ?_, ?_, ?_, ?_, ?_⟩
  · intro k now ldr de iv ie s r s' h
    unfold simpleGet at h
    cases hg : simpleGetValue k now false s with
    | mk rv s₁ =>
      rw [hg] at h
      have h1 : oneMoreLookup (simpleStats s₁) (simpleStats s) := by
        have h0 := simpleGetValue_user_stats k now s
        rw [hg] at h0
        exact h0
      cases rv with
      | some v =>
        injection h with h
        injection h with ha hb
        rw [← hb]
        exact h1
      | none =>
        rw [simpleGetWithLoader_stats k now ldr de iv ie true s₁ r s' h]
        exact h1
  · intro k now ldr de iv ie s r s' h
    unfold simpleGetIfPresent at h
    cases hg : simpleGetValue k now false s with
    | mk rv s₁ =>
      rw [hg] at h
      have h1 : oneMoreLookup (simpleStats s₁) (simpleStats s) := by
        have h0 := simpleGetValue_user_stats k now s
        rw [hg] at h0
        exact h0
      cases rv with
      | some v =>
        injection h with h
        injection h with ha hb
        rw [← hb]
        exact h1
      | none =>
        rw [simpleGetWithLoader_stats k now ldr de iv ie false s₁ r s' h]
        exact h1
  · intro k now ldr de iv ie s r s' h
    unfold lruGet at h
    cases hg : lruGetValue k now false s with
    | mk rv s₁ =>
      rw [hg] at h
      have h1 : oneMoreLookup (lruStats s₁) (lruStats s) := by
        have h0 := lruGetValue_user_stats k now s
        rw [hg] at h0
        exact h0
      cases rv with
      | some v =>
        injection h with h
        injection h with ha hb
        rw [← hb]
        exact h1
      | none =>
        rw [lruGetWithLoader_stats k now ldr de iv ie true s₁ r s' h]
        exact h1
  · intro k now ldr de iv ie s r s' h
    unfold lruGetIfPresent at h
    cases hg : lruGetValue k now false s with
    | mk rv s₁ =>
      rw [hg] at h
      have h1 : oneMoreLookup (lruStats s₁) (lruStats s) := by
        have h0 := lruGetValue_user_stats k now s
        rw [hg] at h0
        exact h0
      cases rv with
      | some v =>
        injection h with h
        injection h with ha hb
        rw [← hb]
        exact h1
      | none =>
        rw [lruGetWithLoader_stats k now ldr de iv ie false s₁ r s' h]
        exact h1
  · intro k now ldr de iv ie s r s' h
    unfold lfuGet at h
    cases hg : lfuGetValue k now false s with
    | none => rw [hg] at h; exact absurd h (by simp)
    | some p =>
      obtain ⟨rv, s₁⟩ := p
      rw [hg] at h
      simp only [Option.some_bind] at h
      have h1 : oneMoreLookup (lfuStats s₁) (lfuStats s) :=
        lfuGetValue_user_stats k now s (rv, s₁) hg
      cases rv with
      | some v =>
        injection h with h
        injection h with ha hb
        rw [← hb]
        exact h1
      | none =>
        rw [lfuGetWithLoader_stats k now ldr de iv ie true s₁ r s' h]
        exact h1
  · intro k now ldr de iv ie s r s' h
    unfold lfuGetIfPresent at h
    cases hg : lfuGetValue k now false s with
    | none => rw [hg] at h; exact absurd h (by simp)
    | some p =>
      obtain ⟨rv, s₁⟩ := p
      rw [hg] at h
      simp only [Option.some_bind] at h
      have h1 : oneMoreLookup (lfuStats s₁) (lfuStats s) :=
        lfuGetValue_user_stats k now s (rv, s₁) hg
      cases rv with
      | some v =>
        injection h with h
        injection h with ha hb
        rw [← hb]
        exact h1
      | none =>
        rw [lfuGetWithLoader_stats k now ldr de iv ie false s₁ r s' h]
        exact h1
  · intro k now ldr de iv ie s r s' h
    unfold arcGet at h
    cases hg : arcGetValue k now false s with
    | none => rw [hg] at h; exact absurd h (by simp)
    | some p =>
      obtain ⟨rv, s₁⟩ := p
      rw [hg] at h
      simp only [Option.some_bind] at h
      have h1 : oneMoreLookup (arcStats s₁) (arcStats s) :=
        arcGetValue_user_stats k now s (rv, s₁) hg
      cases rv with
      | some v =>
        injection h with h
        injection h with ha hb
        rw [← hb]
        exact h1
      | none =>
        rw [arcGetWithLoader_stats k now ldr de iv ie true s₁ r s' h]
        exact h1
  · intro k now ldr de iv ie s r s' h
    unfold arcGetIfPresent at h
    cases hg : arcGetValue k now false s with
    | none => rw [hg] at h; exact absurd h (by simp)
    | some p =>
      obtain ⟨rv, s₁⟩ := p
      rw [hg] at h
      simp only [Option.some_bind] at h
      have h1 : oneMoreLookup (arcStats s₁) (arcStats s) :=
        arcGetValue_user_stats k now s (rv, s₁) hg
      cases rv with
      | some v =>
        injection h with h
        injection h with ha hb
        rw [← hb]
        exact h1
      | none =>
        rw [arcGetWithLoader_stats k now ldr de iv ie false s₁ r s' h]
        exact h1

/-- Witness for C6: a cold `Get` with no loader configured counts exactly
one miss. -/
theorem stats_counted_once_per_user_get_witness :
    (simpleGet 1 0 none false none none (simpleInit 1) =
      some ((none, some CErr.keyNotFound), ⟨[], 1, none, 0, 1, [], []⟩)) ∧
    oneMoreLookup (simpleStats (⟨[], 1, none, 0, 1, [], []⟩ : SimpleState))
      (simpleStats (simpleInit 1)) :=
  ⟨rfl, stats_counted_once_per_user_get.2.2.2.2.1 1 0 none false none none (simpleInit 1)
    (none, some CErr.keyNotFound) ⟨[], 1, none, 0, 1, [], []⟩ rfl⟩

/-! ## C7 — round-trip law

`Set(k, v); Get(k) = v` with no default expiration configured, provided
any pre-existing entry for `k` was not already expired (the claim's "no
intervening expiration"), for the SIMPLE, LRU and LFU policies (the
policies the claim is drawn from; ARC's overwrite path is the subject of
C1).  For LFU the statement carries the structural invariants of the
bucket list (strict ascent, and the entry belonging to a bucket) that
hold for every reachable cache. -/

theorem lookup_cons_self (k : Nat) (it : CacheItem) (l : List (Nat × CacheItem)) :
    List.lookup k ((k, it) :: l) = some it := by
  simp [List.lookup]

theorem lookup_setItemValue (k v : Nat) (l : List (Nat × CacheItem)) :
    List.lookup k (setItemValue k v l) =
      (List.lookup k l).map fun it => { it with value := v } := by
  induction l with
  | nil => rfl
  | cons p ps ih =>
    obtain ⟨j, it⟩ := p
    simp only [setItemValue, List.map_cons] at ih ⊢
    by_cases hp : j = k
    · subst hp
      rw [if_pos rfl]
      simp [List.lookup]
    · have hb : (k == j) = false := by simp [Ne.symm hp]
      rw [if_neg hp]
      simp [List.lookup, hb]
      exact ih

theorem simpleGetValue_hit (k now v : Nat) (e : Option Nat) (u : SimpleState)
    (hu : u.items.lookup k = some ⟨v, e⟩) (he : isExpired e now = false) :
    (simpleGetValue k now false u).1 = some v := by
  unfold simpleGetValue
  rw [hu]
  dsimp only
  rw [if_pos (by simp [he])]

theorem simple_roundtrip (k v now : Nat) (s : SimpleState)
    (hexp : s.defaultExp = none)
    (hfresh : ∀ it, s.items.lookup k = some it → isExpired it.expiration now = false) :
    (simpleGetValue k now false (simpleSet k v now s)).1 = some v := by
  cases hl : s.items.lookup k with
  | some it =>
    have hset : simpleSet k v now s =
        { s with items := setItemValue k v s.items, addedLog := (k, v) :: s.addedLog } := by
      unfold simpleSet
      rw [hl]
      dsimp only
      rw [hexp]
      rfl
    rw [hset]
    have h4 : List.lookup k (setItemValue k v s.items) = some ⟨v, it.expiration⟩ := by
      rw [lookup_setItemValue, hl]
      rfl
    exact simpleGetValue_hit k now v it.expiration _ h4 (hfresh it hl)
  | none =>
    have hset : simpleSet k v now s =
        (let t := if s.size ≤ s.items.length ∧ 0 < s.size then simpleEvictOne now s else s;
          { t with items := (k, ⟨v, none⟩) :: t.items, addedLog := (k, v) :: t.addedLog }) := by
      unfold simpleSet
      rw [hl]
      dsimp only
      have he : (if s.size ≤ s.items.length ∧ 0 < s.size then simpleEvictOne now s else s).defaultExp = none := by
        split
        · unfold simpleEvictOne simpleRemove
          repeat' split
          all_goals (first | exact hexp | rfl)
        · exact hexp
      rw [he]
      rfl
    rw [hset]
    exact simpleGetValue_hit k now v none _ (lookup_cons_self k ⟨v, none⟩ _) rfl

theorem lruGetValue_hit (k now v : Nat) (e : Option Nat) (u : LruState)
    (hu : u.list.lookup k = some ⟨v, e⟩) (he : isExpired e now = false) :
    (lruGetValue k now false u).1 = some v := by
  unfold lruGetValue
  rw [hu]
  dsimp only
  rw [if_pos (by simp [he])]

theorem lru_roundtrip (k v now : Nat) (s : LruState)
    (hexp : s.defaultExp = none)
    (hfresh : ∀ it, s.list.lookup k = some it → isExpired it.expiration now = false) :
    (lruGetValue k now false (lruSet k v now s)).1 = some v := by
  cases hl : s.list.lookup k with
  | some it =>
    have hset : lruSet k v now s =
        { s with list := (k, { it with value := v }) :: eraseItem k s.list,
                 addedLog := (k, v) :: s.addedLog } := by
      unfold lruSet
      rw [hl]
      dsimp only
      rw [hexp]
      rfl
    rw [hset]
    exact lruGetValue_hit k now v it.expiration _ (lookup_cons_self k _ _) (hfresh it hl)
  | none =>
    have hset : lruSet k v now s =
        (let t := if s.size ≤ s.list.length then lruEvictOne s else s;
          { t with list := (k, ⟨v, none⟩) :: t.list, addedLog := (k, v) :: t.addedLog }) := by
      unfold lruSet
      rw [hl]
      dsimp only
      have he : (if s.size ≤ s.list.length then lruEvictOne s else s).defaultExp = none := by
        split
        · unfold lruEvictOne lruRemoveElement
          repeat' split
          all_goals (first | exact hexp | rfl)
        · exact hexp
      rw [he]
      rfl
    rw [hset]
    exact lruGetValue_hit k now v none _ (lookup_cons_self k ⟨v, none⟩ _) rfl

theorem lfuIncrementOn_sorted_some (k : Nat) (fl : List FreqEntry)
    (hsort : freqAscending fl) (hmem : ∃ b ∈ fl, k ∈ b.items) :
    (lfuIncrementOn k fl).isSome := by
  induction fl with
  | nil =>
    obtain ⟨b, hb, _⟩ := hmem
    exact absurd hb (by simp)
  | cons cur rest ih =>
    unfold lfuIncrementOn
    by_cases hk : k ∈ cur.items
    · rw [if_pos hk]
      exact lfuIncrement_sorted_some k cur rest hsort
    · rw [if_neg hk]
      rw [Option.isSome_map']
      refine ih ((List.pairwise_cons.mp hsort).2) ?_
      obtain ⟨b, hb, hkb⟩ := hmem
      rcases List.mem_cons.mp hb with hbe | hbr
      · exact absurd (hbe ▸ hkb) hk
      · exact ⟨b, hbr, hkb⟩

theorem lfu_roundtrip (k v now : Nat) (s s' : LfuState)
    (hexp : s.defaultExp = none)
    (hfresh : ∀ it, s.items.lookup k = some it → isExpired it.expiration now = false)
    (hset : lfuSet k v now s = some s')
    (hsort : freqAscending s'.freqList)
    (hmem : ∃ b ∈ s'.freqList, k ∈ b.items) :
    ∃ s'', lfuGetValue k now false s' = some (some v, s'') := by
  have hlk : ∃ e, s'.items.lookup k = some ⟨v, e⟩ ∧ isExpired e now = false := by
    unfold lfuSet at hset
    cases hl : s.items.lookup k with
    | some it =>
      rw [hl] at hset
      injection hset with hset
      refine ⟨it.expiration, ?_, hfresh it hl⟩
      rw [← hset]
      show List.lookup k (applyDefaultExp s.defaultExp now k (setItemValue k v s.items)) =
        some ⟨v, it.expiration⟩
      rw [hexp]
      show List.lookup k (setItemValue k v s.items) = some ⟨v, it.expiration⟩
      rw [lookup_setItemValue, hl]
      rfl
    | none =>
      rw [hl] at hset
      dsimp only at hset
      generalize ht : (if s.size ≤ s.items.length then lfuEvictOne s else s) = t at hset
      have htd : t.defaultExp = none := by
        rw [← ht]
        split
        · unfold lfuEvictOne lfuRemoveItem
          repeat' split
          all_goals (first | exact hexp | rfl)
        · exact hexp
      cases hf : t.freqList with
      | nil => rw [hf] at hset; exact absurd hset (by simp)
      | cons head rest =>
        rw [hf] at hset
        injection hset with hset
        refine ⟨none, ?_, rfl⟩
        rw [← hset]
        show List.lookup k (applyDefaultExp t.defaultExp now k ((k, ⟨v, none⟩) :: t.items)) =
          some ⟨v, none⟩
        rw [htd]
        exact lookup_cons_self k ⟨v, none⟩ t.items
  obtain ⟨e, hlk, he⟩ := hlk
  obtain ⟨fl', hfl⟩ := Option.isSome_iff_exists.mp (lfuIncrementOn_sorted_some k s'.freqList hsort hmem)
  refine ⟨{ s' with freqList := fl', hits := s'.hits + 1 }, ?_⟩
  unfold lfuGetValue
  rw [hlk]
  dsimp only
  rw [if_pos (by simp [he]), hfl]
  rfl

/-- **C7.** Round-trip: after `set(k, v)` on a cache with no default
expiration, a `Get` of `k` returns `v` — for SIMPLE, LRU and (given the
bucket-list invariants) LFU. -/
theorem set_then_get_returns_value :
    (∀ (k v now : Nat) (s : SimpleState), s.defaultExp = none →
      (∀ it, s.items.lookup k = some it → isExpired it.expiration now = false) →
      (simpleGetValue k now false (simpleSet k v now s)).1 = some v) ∧
    (∀ (k v now : Nat) (s : LruState), s.defaultExp = none →
      (∀ it, s.list.lookup k = some it → isExpired it.expiration now = false) →
      (lruGetValue k now false (lruSet k v now s)).1 = some v) ∧
    (∀ (k v now : Nat) (s s' : LfuState), s.defaultExp = none →
      (∀ it, s.items.lookup k = some it → isExpired it.expiration now = false) →
      lfuSet k v now s = some s' →
      freqAscending s'.freqList →
      (∃ b ∈ s'.freqList, k ∈ b.items) →
      ∃ s'', lfuGetValue k now false s' = some (some v, s'')) :=
  ⟨simple_roundtrip, lru_roundtrip, lfu_roundtrip⟩

/-- Witness for C7: `Set(1, 9); Get(1)` on a fresh capacity-2 SIMPLE cache
returns 9. -/
theorem set_then_get_returns_value_witness :
    ((simpleInit 2).defaultExp = none) ∧
    ((simpleGetValue 1 0 false (simpleSet 1 9 0 (simpleInit 2))).1 = some 9) :=
  ⟨rfl, set_then_get_returns_value.1 1 9 0 (simpleInit 2) rfl
    (fun it h => Option.noConfusion h)⟩
